import Mathlib

/-!
Verification of the skyscraper retention-deletion engine.

The Rust sources are shallowly embedded as pure Lean functions:

* timestamps are modelled as the *result* of `parse_timestamp`: an
  `Option Int` (`none` = the string failed to parse, `some t` = parsed
  instant `t`); Bluesky's optional `createdAt` field becomes
  `Option (Option Int)` (outer `none` = field absent);
* the asynchronous platform clients are replaced by the sequence of
  responses they would return: a pass consumes a `List (Option page)`
  where a `none` entry models a page-fetch failure (`Err` from the
  client), and delete / unfavourite calls are modelled by a function
  from the record identifier to the call's outcome;
* each pass additionally records the trace of delete calls it issued
  (`calls`), so that "never deleted" and "zero delete calls" become
  provable statements about the trace;
* fallible passes return `Except Unit _`: `Except.error ()` models the
  Rust function returning `Err(..)` (the locally accumulated counters
  are discarded, as in the source, where they are local variables of
  the failed function).
-/

namespace Skyscraper

/-- Run configuration, from `Config` in main.rs.  The cutoff instant is an
integer timestamp. -/
structure Config where
  cutoff : Int
  dryRun : Bool
  deletePinned : Bool
  deleteReposts : Bool
  deleteLikes : Bool
  deriving DecidableEq

/-- Keep-list membership, from `is_protected` in main.rs: an id is protected
iff the keep list contains `"platform:id"` or the bare `id`.  The
`HashSet<String>` is modelled as a `List String` with `contains`. -/
def is_protected (keepList : List String) (platform id : String) : Bool :=
  keepList.contains (platform ++ ":" ++ id) || keepList.contains id

namespace Bluesky

/-- A Bluesky record, from `Record`/`RecordValue` in bluesky.rs.
`createdAt = none` models a missing `createdAt` field; `some none` models a
present but unparsable timestamp; `some (some t)` a parsed instant. -/
structure Record where
  uri : String
  createdAt : Option (Option Int)
  deriving DecidableEq

/-- One page of records, from `ListRecordsResponse` in bluesky.rs. -/
structure ListRecordsResponse where
  records : List Record
  cursor : Option String
  deriving DecidableEq

/-- Per-pass counters plus the trace of issued delete calls, from
`DeleteResult` in bluesky.rs (`calls` is the observational trace of
`delete_record` invocations, identified by rkey). -/
structure DeleteResult where
  deleted : Nat
  skippedPinned : Nat
  skippedKept : Nat
  calls : List String
  deriving DecidableEq

/-- The zero counters the pass starts from. -/
def initResult : DeleteResult := ⟨0, 0, 0, []⟩

/-- Accumulates the current `/`-separated segment, restarting at each
separator; the final accumulator is the last segment. -/
def lastSegAux : List Char → List Char → List Char
  | [], acc => acc
  | c :: cs, acc => if c = '/' then lastSegAux cs [] else lastSegAux cs (acc ++ [c])

/-- The rkey is the last `/`-separated segment of the AT URI
(`record.uri.rsplit('/').next()` in bluesky.rs; it never fails). -/
def rkeyOf (uri : String) : String := String.mk (lastSegAux uri.data [])

/-- Processing of a single record inside the page loop of
`delete_old_records` in bluesky.rs.  `delOk rkey` tells whether the
`delete_record` call for that rkey would succeed (any failure is logged and
iteration continues). -/
def step (cfg : Config) (keep : List String) (pinnedUri : Option String)
    (delOk : String → Bool) (st : DeleteResult) (r : Record) : DeleteResult :=
  match r.createdAt with
  | none => st
  | some none => st
  | some (some t) =>
    if cfg.cutoff ≤ t then st
    else
      let rkey := rkeyOf r.uri
      if pinnedUri = some r.uri then
        { st with skippedPinned := st.skippedPinned + 1 }
      else if is_protected keep "bluesky" rkey || is_protected keep "bluesky" r.uri then
        { st with skippedKept := st.skippedKept + 1 }
      else if cfg.dryRun then
        { st with deleted := st.deleted + 1 }
      else
        let st' := { st with calls := st.calls ++ [rkey] }
        if delOk rkey then { st' with deleted := st'.deleted + 1 } else st'

/-- The records actually evaluated by the page loop: pages are consumed in
order until an empty page, a fetch failure, or an absent cursor. -/
def evaluated : List (Option ListRecordsResponse) → List Record
  | [] => []
  | none :: _ => []
  | some p :: rest =>
    if p.records.isEmpty then []
    else if p.cursor.isNone then p.records
    else p.records ++ evaluated rest

/-- The pagination loop of `delete_old_records` in bluesky.rs, over the
sequence of responses the client returns.  A `none` page models a failed
`list_records` call, which propagates (`?`) and discards the counters.  An
exhausted response list behaves like an empty page. -/
def delete_old_records (cfg : Config) (keep : List String) (pinnedUri : Option String)
    (delOk : String → Bool) :
    List (Option ListRecordsResponse) → DeleteResult → Except Unit DeleteResult
  | [], st => .ok st
  | none :: _, _ => .error ()
  | some p :: rest, st =>
    if p.records.isEmpty then .ok st
    else
      let st2 := p.records.foldl (step cfg keep pinnedUri delOk) st
      if p.cursor.isNone then .ok st2
      else delete_old_records cfg keep pinnedUri delOk rest st2

/-- Results of a full Bluesky run, one `DeleteResult` per collection pass
actually executed by `delete_old_posts` in bluesky.rs. -/
structure Summary where
  posts : DeleteResult
  reposts : Option DeleteResult
  likes : Option DeleteResult
  deriving DecidableEq

/-- The full Bluesky run, from `delete_old_posts` in bluesky.rs:
authenticate, fetch the pinned-post URI only when `deletePinned` is false,
run the posts pass with it, then the reposts and likes passes (without a
pinned URI) when the respective flags are set.  `lookupPinned` is the value
`get_pinned_post_uri` would return; `delOk` takes the collection name and
the rkey. -/
def delete_old_posts (cfg : Config) (keep : List String) (authOk : Bool)
    (lookupPinned : Option String) (delOk : String → String → Bool)
    (postPages repostPages likePages : List (Option ListRecordsResponse)) :
    Except Unit Summary :=
  if authOk then
    let pinnedUri := if !cfg.deletePinned then lookupPinned else none
    match delete_old_records cfg keep pinnedUri (delOk "app.bsky.feed.post")
        postPages initResult with
    | .error e => .error e
    | .ok posts =>
      match (if cfg.deleteReposts then
          (delete_old_records cfg keep none (delOk "app.bsky.feed.repost")
            repostPages initResult).map some
        else .ok none) with
      | .error e => .error e
      | .ok reposts =>
        match (if cfg.deleteLikes then
            (delete_old_records cfg keep none (delOk "app.bsky.feed.like")
              likePages initResult).map some
          else .ok none) with
        | .error e => .error e
        | .ok likes => .ok ⟨posts, reposts, likes⟩
  else .error ()

/-- A record parses to an instant strictly before the cutoff (the only
records the pass ever acts on). -/
def oldParsed (cfg : Config) (r : Record) : Bool :=
  match r.createdAt with
  | some (some t) => decide (t < cfg.cutoff)
  | _ => false

/-- The record is the pinned post the pass was given. -/
def pinnedHit (pinnedUri : Option String) (r : Record) : Bool :=
  pinnedUri = some r.uri

/-- The record is protected by the keep list (checked on both the rkey and
the full AT URI, as in bluesky.rs). -/
def protectedHit (keep : List String) (r : Record) : Bool :=
  is_protected keep "bluesky" (rkeyOf r.uri) || is_protected keep "bluesky" r.uri

/-- The record qualifies for deletion: old, not the pinned post, not
protected. -/
def eligible (cfg : Config) (keep : List String) (pinnedUri : Option String)
    (r : Record) : Bool :=
  oldParsed cfg r && !pinnedHit pinnedUri r && !protectedHit keep r

/-- A server holding `l` and answering `list_records` in pages of `k + 1`
records with a numeric continuation cursor, as the pagination contract (and
the repository's fake client) prescribes: the final page carries no
cursor. -/
def chunkPages (k : Nat) (l : List Record) : List ListRecordsResponse :=
  if l.length ≤ k + 1 then [⟨l, none⟩]
  else ⟨l.take (k + 1), some "next"⟩ :: chunkPages k (l.drop (k + 1))
termination_by l.length
decreasing_by simp; omega

end Bluesky

namespace Mastodon

/-- A Mastodon status, from `Status` in mastodon.rs.  `createdAt` is the
result of `parse_timestamp` on the `created_at` string (`none` =
unparsable); `reblog` models `reblog.is_some()`. -/
structure Status where
  id : String
  createdAt : Option Int
  pinned : Bool
  reblog : Bool
  deriving DecidableEq

/-- Outcome of a `delete_status` / `unfavourite` call.  `rateLimited` models
an error whose message contains "429" (the branch mastodon.rs inspects);
`otherErr` any other failure. -/
inductive DeleteOutcome
  | ok
  | rateLimited
  | otherErr
  deriving DecidableEq

/-- Counters of the statuses pass in `delete_old_posts` in mastodon.rs,
plus the trace of `delete_status` calls issued. -/
structure Counters where
  deleted : Nat
  skippedPinned : Nat
  skippedKept : Nat
  skippedReposts : Nat
  calls : List String
  deriving DecidableEq

/-- The zero counters the statuses pass starts from. -/
def initCounters : Counters := ⟨0, 0, 0, 0, []⟩

/-- The per-page item loop of the statuses pass in mastodon.rs.  A
rate-limited `delete_status` call executes `break`, which in the source
exits only this `for` loop: the remaining items of the *current page* are
dropped, but the outer pagination loop continues. -/
def processStatuses (cfg : Config) (keep : List String)
    (del : String → DeleteOutcome) : List Status → Counters → Counters
  | [], st => st
  | s :: rest, st =>
    match s.createdAt with
    | none => processStatuses cfg keep del rest st
    | some t =>
      if cfg.cutoff ≤ t then processStatuses cfg keep del rest st
      else if s.reblog && !cfg.deleteReposts then
        processStatuses cfg keep del rest
          { st with skippedReposts := st.skippedReposts + 1 }
      else if s.pinned && !cfg.deletePinned then
        processStatuses cfg keep del rest
          { st with skippedPinned := st.skippedPinned + 1 }
      else if is_protected keep "mastodon" s.id then
        processStatuses cfg keep del rest
          { st with skippedKept := st.skippedKept + 1 }
      else if cfg.dryRun then
        processStatuses cfg keep del rest { st with deleted := st.deleted + 1 }
      else
        let st' := { st with calls := st.calls ++ [s.id] }
        match del s.id with
        | .ok => processStatuses cfg keep del rest { st' with deleted := st'.deleted + 1 }
        | .rateLimited => st'
        | .otherErr => processStatuses cfg keep del rest st'

/-- The statuses pagination loop of mastodon.rs, over the sequence of
`list_statuses` responses.  A `none` page models a failed fetch, which
propagates (`?`); the loop otherwise ends only on an empty page (`max_id`
always advances past the whole current page, even after a rate-limit
break). -/
def statusesLoop (cfg : Config) (keep : List String) (del : String → DeleteOutcome) :
    List (Option (List Status)) → Counters → Except Unit Counters
  | [], st => .ok st
  | none :: _, _ => .error ()
  | some pg :: rest, st =>
    if pg.isEmpty then .ok st
    else statusesLoop cfg keep del rest (processStatuses cfg keep del pg st)

/-- One page of favourites together with the `max_id` extracted from the
response's Link header (`none` ends the loop). -/
structure FavPage where
  items : List Status
  nextMaxId : Option String
  deriving DecidableEq

/-- Counters of the favourites pass, plus the trace of `unfavourite`
calls. -/
structure FavCounters where
  favDeleted : Nat
  favSkippedKept : Nat
  favCalls : List String
  deriving DecidableEq

/-- The zero counters the favourites pass starts from. -/
def initFavCounters : FavCounters := ⟨0, 0, []⟩

/-- The per-page item loop of the favourites pass in mastodon.rs.  The
returned flag is true when a rate-limited `unfavourite` executed
`break 'favourites`, which aborts the whole favourites loop. -/
def processFavourites (cfg : Config) (keep : List String)
    (unfav : String → DeleteOutcome) : List Status → FavCounters → FavCounters × Bool
  | [], st => (st, false)
  | s :: rest, st =>
    match s.createdAt with
    | none => processFavourites cfg keep unfav rest st
    | some t =>
      if cfg.cutoff ≤ t then processFavourites cfg keep unfav rest st
      else if is_protected keep "mastodon" s.id then
        processFavourites cfg keep unfav rest
          { st with favSkippedKept := st.favSkippedKept + 1 }
      else if cfg.dryRun then
        processFavourites cfg keep unfav rest
          { st with favDeleted := st.favDeleted + 1 }
      else
        let st' := { st with favCalls := st.favCalls ++ [s.id] }
        match unfav s.id with
        | .ok =>
          processFavourites cfg keep unfav rest
            { st' with favDeleted := st'.favDeleted + 1 }
        | .rateLimited => (st', true)
        | .otherErr => processFavourites cfg keep unfav rest st'

/-- The favourites pagination loop of mastodon.rs.  A `none` page models a
failed `list_favourites` call, which is only logged and breaks the loop —
it does NOT fail the pass.  The loop also ends on an empty page, on a
rate-limit break, or when no next `max_id` is present. -/
def favouritesLoop (cfg : Config) (keep : List String) (unfav : String → DeleteOutcome) :
    List (Option FavPage) → FavCounters → FavCounters
  | [], st => st
  | none :: _, st => st
  | some pg :: rest, st =>
    if pg.items.isEmpty then st
    else
      match processFavourites cfg keep unfav pg.items st with
      | (st', true) => st'
      | (st', false) =>
        if pg.nextMaxId.isNone then st' else favouritesLoop cfg keep unfav rest st'

/-- The full Mastodon run, from `delete_old_posts` in mastodon.rs:
verify credentials, run the statuses pass (fetch failures propagate), then
the favourites pass when `deleteLikes` is set. -/
def delete_old_posts (cfg : Config) (keep : List String)
    (del unfav : String → DeleteOutcome) (authOk : Bool)
    (statusPages : List (Option (List Status))) (favPages : List (Option FavPage)) :
    Except Unit (Counters × Option FavCounters) :=
  if authOk then
    match statusesLoop cfg keep del statusPages initCounters with
    | .error e => .error e
    | .ok st =>
      if cfg.deleteLikes then
        .ok (st, some (favouritesLoop cfg keep unfav favPages initFavCounters))
      else .ok (st, none)
  else .error ()

/-- The statuses pass over already-fetched pages (what the loop computes
when no fetch fails). -/
def statusesRun (cfg : Config) (keep : List String) (del : String → DeleteOutcome) :
    List (List Status) → Counters → Counters
  | [], st => st
  | pg :: rest, st =>
    if pg.isEmpty then st
    else statusesRun cfg keep del rest (processStatuses cfg keep del pg st)

/-- The pass counters, without the call trace. -/
def sameCounters (a b : Counters) : Prop :=
  a.deleted = b.deleted ∧ a.skippedPinned = b.skippedPinned ∧
    a.skippedKept = b.skippedKept ∧ a.skippedReposts = b.skippedReposts

/-- The favourites counters, without the call trace. -/
def sameFav (a b : FavCounters) : Prop :=
  a.favDeleted = b.favDeleted ∧ a.favSkippedKept = b.favSkippedKept

end Mastodon

namespace Threads

/-- A Threads post, from `ThreadsPost` in threads.rs.  `timestamp` is the
result of `parse_timestamp` (`none` = unparsable). -/
structure ThreadsPost where
  id : String
  timestamp : Option Int
  deriving DecidableEq

/-- One page of Threads posts with the `paging.cursors.after` cursor, from
`ThreadsResponse` in threads.rs. -/
structure ThreadsPage where
  data : List ThreadsPost
  after : Option String
  deriving DecidableEq

/-- Outcome of a Threads delete request: `ok` = success status, `httpFail`
= a non-success HTTP status (logged, iteration continues), `transportErr` =
the `send()` call itself failed, which propagates (`?`) and fails the
pass. -/
inductive ThreadsDel
  | ok
  | httpFail
  | transportErr
  deriving DecidableEq

/-- Counters of the Threads pass plus the trace of delete requests. -/
structure ThreadsState where
  deleted : Nat
  skipped : Nat
  calls : List String
  deriving DecidableEq

/-- The zero counters the Threads pass starts from. -/
def initThreads : ThreadsState := ⟨0, 0, []⟩

/-- The per-page item loop of `delete_old_posts` in threads.rs. -/
def processPosts (cfg : Config) (keep : List String) (del : String → ThreadsDel) :
    List ThreadsPost → ThreadsState → Except Unit ThreadsState
  | [], st => .ok st
  | p :: rest, st =>
    match p.timestamp with
    | none => processPosts cfg keep del rest st
    | some t =>
      if cfg.cutoff ≤ t then processPosts cfg keep del rest st
      else if is_protected keep "threads" p.id then
        processPosts cfg keep del rest { st with skipped := st.skipped + 1 }
      else if cfg.dryRun then
        processPosts cfg keep del rest { st with deleted := st.deleted + 1 }
      else
        let st' := { st with calls := st.calls ++ [p.id] }
        match del p.id with
        | .transportErr => .error ()
        | .ok => processPosts cfg keep del rest { st' with deleted := st'.deleted + 1 }
        | .httpFail => processPosts cfg keep del rest st'

/-- The Threads counters, without the call trace. -/
def sameT (a b : ThreadsState) : Prop :=
  a.deleted = b.deleted ∧ a.skipped = b.skipped

/-- The pagination loop of `delete_old_posts` in threads.rs.  A `none` page
models a failed fetch, which propagates (`?`). -/
def delete_old_posts (cfg : Config) (keep : List String) (del : String → ThreadsDel) :
    List (Option ThreadsPage) → ThreadsState → Except Unit ThreadsState
  | [], st => .ok st
  | none :: _, _ => .error ()
  | some pg :: rest, st =>
    if pg.data.isEmpty then .ok st
    else
      match processPosts cfg keep del pg.data st with
      | .error e => .error e
      | .ok st' =>
        if pg.after.isNone then .ok st'
        else delete_old_posts cfg keep del rest st'

end Threads

/-- What `main` in main.rs observes and reports about one run. -/
structure RunOutcome where
  blueskyRan : Bool
  mastodonRan : Bool
  exitZero : Bool
  deriving DecidableEq

/-- Whether a platform pass propagated an error. -/
def passFailed : Except Unit Unit → Bool
  | .error _ => true
  | .ok _ => false

/-- The orchestration in `main` in main.rs: a platform pass runs iff both
of its environment variables are present (`bskyCreds`, `mastoCreds`);
`bskyResult` / `mastoResult` are the outcomes the respective
`delete_old_posts` call would produce.  A pass error sets `had_errors`;
the process exits non-zero (`bail!`) iff `had_errors` is set at the end. -/
def mainRun (bskyCreds mastoCreds : Bool) (bskyResult mastoResult : Except Unit Unit) :
    RunOutcome :=
  let hadErrors :=
    (bskyCreds && passFailed bskyResult) || (mastoCreds && passFailed mastoResult)
  ⟨bskyCreds, mastoCreds, !hadErrors⟩

/-- The platforms `main` in main.rs dispatches on, with the environment
variables gating each: the `match` statements in main.rs cover exactly
Bluesky and Mastodon (threads.rs is present in the tree but main.rs
declares no `mod threads` and never invokes it). -/
def platformEnvVars : List (String × List String) :=
  [("bluesky", ["BLUESKY_IDENTIFIER", "BLUESKY_APP_PASSWORD"]),
   ("mastodon", ["MASTODON_INSTANCE_URL", "MASTODON_ACCESS_TOKEN"])]

/-- Concrete fixture: a live run configuration with cutoff instant 0. -/
def cfgLive : Config := ⟨0, false, false, true, true⟩

/-- Concrete fixture: the dry-run variant of `cfgLive`. -/
def cfgDry : Config := ⟨0, true, false, true, true⟩

/-- Concrete fixture: a live configuration with `deletePinned = true`. -/
def cfgDelPinned : Config := ⟨0, false, true, true, true⟩

/-- Concrete fixture: an old (pre-cutoff) Bluesky record. -/
def rOld : Bluesky.Record := ⟨"at://u/app.bsky.feed.post/abc123", some (some (-5))⟩

/-- Concrete fixture: a second old Bluesky record. -/
def rOld2 : Bluesky.Record := ⟨"at://u/app.bsky.feed.post/def456", some (some (-3))⟩

/-- Concrete fixture: a Bluesky record newer than the cutoff. -/
def rNew : Bluesky.Record := ⟨"at://u/app.bsky.feed.post/new789", some (some 5)⟩

/-- Concrete fixture: a Bluesky record whose `createdAt` field is absent. -/
def rNoTs : Bluesky.Record := ⟨"at://u/app.bsky.feed.post/bad000", none⟩

/-- Concrete fixture: an old unpinned, non-reblog Mastodon status. -/
def sOld (id : String) : Mastodon.Status := ⟨id, some (-5), false, false⟩

/-- Concrete fixture: an old pinned Mastodon status. -/
def sOldPinned (id : String) : Mastodon.Status := ⟨id, some (-5), true, false⟩

/-- Concrete fixture: an old Threads post. -/
def pOld (id : String) : Threads.ThreadsPost := ⟨id, some (-5)⟩

/-- Concrete fixture: delete behaviour where the call for id "A" reports
rate-limiting and every other call succeeds. -/
def delC3 : String → Mastodon.DeleteOutcome :=
  fun id => if id = "A" then .rateLimited else .ok

/-- Concrete fixture: two status pages, "A" and "B" on the first page and
"C" on the second. -/
def pagesC3 : List (Option (List Mastodon.Status)) :=
  [some [sOld "A", sOld "B"], some [sOld "C"]]

/-- Concrete fixture: favourites pages with "X", "A" (rate-limited) and "Y"
on the first page and "Z" on the second. -/
def favPagesC3 : List (Option Mastodon.FavPage) :=
  [some ⟨[sOld "X", sOld "A", sOld "Y"], some "m"⟩, some ⟨[sOld "Z"], none⟩]

namespace Bluesky

theorem step_eq (cfg : Config) (keep : List String) (pinnedUri : Option String)
    (delOk : String → Bool) (st : DeleteResult) (r : Record) :
    step cfg keep pinnedUri delOk st r =
      if oldParsed cfg r = false then st
      else if pinnedHit pinnedUri r then { st with skippedPinned := st.skippedPinned + 1 }
      else if protectedHit keep r then { st with skippedKept := st.skippedKept + 1 }
      else if cfg.dryRun then { st with deleted := st.deleted + 1 }
      else if delOk (rkeyOf r.uri) then
        { st with deleted := st.deleted + 1, calls := st.calls ++ [rkeyOf r.uri] }
      else { st with calls := st.calls ++ [rkeyOf r.uri] } := by
  rcases hc : r.createdAt with _ | ts
  · simp [step, oldParsed, hc]
  · rcases ts with _ | t
    · simp [step, oldParsed, hc]
    · by_cases hlt : cfg.cutoff ≤ t
      · have : ¬ t < cfg.cutoff := not_lt.mpr hlt
        simp [step, oldParsed, hc, hlt, this]
      · have hlt' : t < cfg.cutoff := lt_of_not_le hlt
        simp only [step, oldParsed, hc, hlt, if_neg hlt, decide_eq_true hlt',
          Bool.true_eq_false, if_false]
        simp only [pinnedHit, protectedHit, decide_eq_true_eq]

theorem step_calls (cfg : Config) (keep : List String) (pinnedUri : Option String)
    (delOk : String → Bool) (st : DeleteResult) (r : Record) :
    (step cfg keep pinnedUri delOk st r).calls =
      st.calls ++
        (if eligible cfg keep pinnedUri r && !cfg.dryRun then [rkeyOf r.uri] else []) := by
  rw [step_eq]
  unfold eligible
  cases ho : oldParsed cfg r <;>
    cases hp : pinnedHit pinnedUri r <;>
      cases hk : protectedHit keep r <;>
        cases hd : cfg.dryRun <;>
          simp [ho, hp, hk, hd] <;> split <;> simp

theorem step_deleted (cfg : Config) (keep : List String) (pinnedUri : Option String)
    (delOk : String → Bool) (st : DeleteResult) (r : Record) :
    (step cfg keep pinnedUri delOk st r).deleted =
      st.deleted +
        (if eligible cfg keep pinnedUri r && (cfg.dryRun || delOk (rkeyOf r.uri)) then 1
         else 0) := by
  rw [step_eq]
  unfold eligible
  cases ho : oldParsed cfg r <;>
    cases hp : pinnedHit pinnedUri r <;>
      cases hk : protectedHit keep r <;>
        cases hd : cfg.dryRun <;>
          cases hdel : delOk (rkeyOf r.uri) <;>
            simp [ho, hp, hk, hd, hdel]

theorem step_skippedPinned (cfg : Config) (keep : List String) (pinnedUri : Option String)
    (delOk : String → Bool) (st : DeleteResult) (r : Record) :
    (step cfg keep pinnedUri delOk st r).skippedPinned =
      st.skippedPinned +
        (if oldParsed cfg r && pinnedHit pinnedUri r then 1 else 0) := by
  rw [step_eq]
  cases ho : oldParsed cfg r <;>
    cases hp : pinnedHit pinnedUri r <;>
      cases hk : protectedHit keep r <;>
        cases hd : cfg.dryRun <;>
          cases hdel : delOk (rkeyOf r.uri) <;>
            simp [ho, hp, hk, hd, hdel]

theorem step_skippedKept (cfg : Config) (keep : List String) (pinnedUri : Option String)
    (delOk : String → Bool) (st : DeleteResult) (r : Record) :
    (step cfg keep pinnedUri delOk st r).skippedKept =
      st.skippedKept +
        (if oldParsed cfg r && !pinnedHit pinnedUri r && protectedHit keep r then 1
         else 0) := by
  rw [step_eq]
  cases ho : oldParsed cfg r <;>
    cases hp : pinnedHit pinnedUri r <;>
      cases hk : protectedHit keep r <;>
        cases hd : cfg.dryRun <;>
          cases hdel : delOk (rkeyOf r.uri) <;>
            simp [ho, hp, hk, hd, hdel]

theorem foldl_calls (cfg : Config) (keep : List String) (pinnedUri : Option String)
    (delOk : String → Bool) (l : List Record) (st : DeleteResult) :
    (l.foldl (step cfg keep pinnedUri delOk) st).calls =
      st.calls ++
        ((l.filter (fun r => eligible cfg keep pinnedUri r && !cfg.dryRun)).map
          (fun r => rkeyOf r.uri)) := by
  induction l generalizing st with
  | nil => simp
  | cons r rest ih =>
    simp only [List.foldl_cons, ih, step_calls, List.filter_cons]
    cases h : eligible cfg keep pinnedUri r && !cfg.dryRun <;> simp [h]

theorem foldl_deleted (cfg : Config) (keep : List String) (pinnedUri : Option String)
    (delOk : String → Bool) (l : List Record) (st : DeleteResult) :
    (l.foldl (step cfg keep pinnedUri delOk) st).deleted =
      st.deleted +
        (l.filter
          (fun r => eligible cfg keep pinnedUri r && (cfg.dryRun || delOk (rkeyOf r.uri)))).length := by
  induction l generalizing st with
  | nil => simp
  | cons r rest ih =>
    simp only [List.foldl_cons, ih, step_deleted, List.filter_cons]
    cases h : eligible cfg keep pinnedUri r && (cfg.dryRun || delOk (rkeyOf r.uri)) <;>
      simp [h] <;> omega

theorem foldl_skippedPinned (cfg : Config) (keep : List String) (pinnedUri : Option String)
    (delOk : String → Bool) (l : List Record) (st : DeleteResult) :
    (l.foldl (step cfg keep pinnedUri delOk) st).skippedPinned =
      st.skippedPinned +
        (l.filter (fun r => oldParsed cfg r && pinnedHit pinnedUri r)).length := by
  induction l generalizing st with
  | nil => simp
  | cons r rest ih =>
    simp only [List.foldl_cons, ih, step_skippedPinned, List.filter_cons]
    cases h : oldParsed cfg r && pinnedHit pinnedUri r <;> simp [h] <;> omega

theorem foldl_skippedKept (cfg : Config) (keep : List String) (pinnedUri : Option String)
    (delOk : String → Bool) (l : List Record) (st : DeleteResult) :
    (l.foldl (step cfg keep pinnedUri delOk) st).skippedKept =
      st.skippedKept +
        (l.filter
          (fun r => oldParsed cfg r && !pinnedHit pinnedUri r && protectedHit keep r)).length := by
  induction l generalizing st with
  | nil => simp
  | cons r rest ih =>
    simp only [List.foldl_cons, ih, step_skippedKept, List.filter_cons]
    cases h : oldParsed cfg r && !pinnedHit pinnedUri r && protectedHit keep r <;>
      simp [h] <;> omega

theorem delete_old_records_ok (cfg : Config) (keep : List String) (pinnedUri : Option String)
    (delOk : String → Bool) (pages : List (Option ListRecordsResponse))
    (st st' : DeleteResult)
    (h : delete_old_records cfg keep pinnedUri delOk pages st = .ok st') :
    st' = (evaluated pages).foldl (step cfg keep pinnedUri delOk) st := by
  induction pages generalizing st with
  | nil =>
    simp only [delete_old_records] at h
    cases h
    simp [evaluated]
  | cons p rest ih =>
    cases p with
    | none => simp [delete_old_records] at h
    | some p =>
      simp only [delete_old_records, evaluated] at h ⊢
      by_cases he : p.records.isEmpty
      · simp only [he, if_true] at h ⊢
        cases h
        simp
      · simp only [he, Bool.false_eq_true, if_false] at h ⊢
        by_cases hcur : p.cursor.isNone
        · simp only [hcur, if_true] at h ⊢
          cases h
          rfl
        · simp only [hcur, Bool.false_eq_true, if_false] at h ⊢
          rw [List.foldl_append]
          exact ih _ h

theorem delete_old_records_pure (cfg : Config) (keep : List String)
    (pinnedUri : Option String) (delOk : String → Bool)
    (pages : List ListRecordsResponse) (st : DeleteResult) :
    delete_old_records cfg keep pinnedUri delOk (pages.map some) st =
      .ok ((evaluated (pages.map some)).foldl (step cfg keep pinnedUri delOk) st) := by
  induction pages generalizing st with
  | nil => simp [delete_old_records, evaluated]
  | cons p rest ih =>
    simp only [List.map_cons, delete_old_records, evaluated]
    by_cases he : p.records.isEmpty
    · simp [he]
    · simp only [he, Bool.false_eq_true, if_false]
      by_cases hcur : p.cursor.isNone
      · simp [hcur]
      · simp only [hcur, Bool.false_eq_true, if_false, ih, List.foldl_append]

end Bluesky

namespace Mastodon

theorem statusesLoop_pure (cfg : Config) (keep : List String)
    (del : String → DeleteOutcome) (pages : List (List Status)) (st : Counters) :
    statusesLoop cfg keep del (pages.map some) st =
      .ok (statusesRun cfg keep del pages st) := by
  induction pages generalizing st with
  | nil => simp [statusesLoop, statusesRun]
  | cons pg rest ih =>
    simp only [List.map_cons, statusesLoop, statusesRun]
    by_cases he : pg.isEmpty
    · simp [he]
    · simp [he, ih]

theorem delete_old_posts_pure (cfg : Config) (keep : List String)
    (del unfav : String → DeleteOutcome) (statusPages : List (List Status))
    (favPages : List (Option FavPage)) :
    delete_old_posts cfg keep del unfav true (statusPages.map some) favPages =
      .ok (statusesRun cfg keep del statusPages initCounters,
        if cfg.deleteLikes then
          some (favouritesLoop cfg keep unfav favPages initFavCounters)
        else none) := by
  simp only [delete_old_posts, if_true, statusesLoop_pure]
  by_cases hl : cfg.deleteLikes <;> simp [hl]

theorem processStatuses_dry_calls (cfg : Config) (keep : List String)
    (del : String → DeleteOutcome) (hd : cfg.dryRun = true) :
    ∀ (l : List Status) (st : Counters),
      (processStatuses cfg keep del l st).calls = st.calls := by
  intro l
  induction l with
  | nil => intro st; rfl
  | cons s rest ih =>
    intro st
    cases hc : s.createdAt with
    | none => simp [processStatuses, hc, ih]
    | some t =>
      simp only [processStatuses, hc]
      by_cases ht : cfg.cutoff ≤ t
      · simp [ht, ih]
      · simp only [ht, if_false]
        by_cases hrb : (s.reblog && !cfg.deleteReposts) = true
        · simp [hrb, ih]
        · simp only [hrb, Bool.false_eq_true, if_false]
          by_cases hpn : (s.pinned && !cfg.deletePinned) = true
          · simp [hpn, ih]
          · simp only [hpn, Bool.false_eq_true, if_false]
            by_cases hk : is_protected keep "mastodon" s.id = true
            · simp [hk, ih]
            · simp [hk, hd, ih]

theorem statusesRun_dry_calls (cfg : Config) (keep : List String)
    (del : String → DeleteOutcome) (hd : cfg.dryRun = true) :
    ∀ (pages : List (List Status)) (st : Counters),
      (statusesRun cfg keep del pages st).calls = st.calls := by
  intro pages
  induction pages with
  | nil => intro st; rfl
  | cons pg rest ih =>
    intro st
    by_cases he : pg.isEmpty <;>
      simp [statusesRun, he, ih, processStatuses_dry_calls cfg keep del hd]

theorem processStatuses_dry_live (cfg : Config) (keep : List String)
    (del : String → DeleteOutcome) :
    ∀ (l : List Status) (stD stL : Counters), sameCounters stD stL →
      sameCounters (processStatuses { cfg with dryRun := true } keep del l stD)
        (processStatuses { cfg with dryRun := false } keep (fun _ => .ok) l stL) := by
  intro l
  induction l with
  | nil => intro stD stL h; exact h
  | cons s rest ih =>
    intro stD stL h
    obtain ⟨h1, h2, h3, h4⟩ := h
    cases hc : s.createdAt with
    | none =>
      simp only [processStatuses, hc]
      exact ih stD stL ⟨h1, h2, h3, h4⟩
    | some t =>
      simp only [processStatuses, hc]
      by_cases ht : cfg.cutoff ≤ t
      · simp only [ht, if_true]
        exact ih stD stL ⟨h1, h2, h3, h4⟩
      · simp only [ht, if_false]
        by_cases hrb : (s.reblog && !cfg.deleteReposts) = true
        · simp only [hrb, if_true]
          exact ih _ _ ⟨h1, h2, h3, by simp [h4]⟩
        · simp only [hrb, Bool.false_eq_true, if_false]
          by_cases hpn : (s.pinned && !cfg.deletePinned) = true
          · simp only [hpn, if_true]
            exact ih _ _ ⟨h1, by simp [h2], h3, h4⟩
          · simp only [hpn, Bool.false_eq_true, if_false]
            by_cases hk : is_protected keep "mastodon" s.id = true
            · simp only [hk, if_true]
              exact ih _ _ ⟨h1, h2, by simp [h3], h4⟩
            · simp only [hk, Bool.false_eq_true, if_false, if_true]
              exact ih _ _ ⟨by simp [h1], h2, h3, h4⟩

theorem statusesRun_dry_live (cfg : Config) (keep : List String)
    (del : String → DeleteOutcome) :
    ∀ (pages : List (List Status)) (stD stL : Counters), sameCounters stD stL →
      sameCounters (statusesRun { cfg with dryRun := true } keep del pages stD)
        (statusesRun { cfg with dryRun := false } keep (fun _ => .ok) pages stL) := by
  intro pages
  induction pages with
  | nil => intro stD stL h; exact h
  | cons pg rest ih =>
    intro stD stL h
    by_cases he : pg.isEmpty
    · simpa [statusesRun, he] using h
    · simp only [statusesRun, he, Bool.false_eq_true, if_false]
      exact ih _ _ (processStatuses_dry_live cfg keep del pg stD stL h)

theorem processStatuses_calls_protected (cfg : Config) (keep : List String)
    (del : String → DeleteOutcome) :
    ∀ (l : List Status) (st : Counters) (id : String),
      id ∈ (processStatuses cfg keep del l st).calls →
      id ∈ st.calls ∨ ∃ s ∈ l, s.id = id ∧ is_protected keep "mastodon" s.id = false := by
  intro l
  induction l with
  | nil => intro st id h; exact Or.inl h
  | cons s rest ih =>
    intro st id h
    have weaken :
        ∀ st0 : Counters, st0.calls = st.calls →
          id ∈ (processStatuses cfg keep del rest st0).calls →
          id ∈ st.calls ∨ ∃ s' ∈ s :: rest, s'.id = id ∧
            is_protected keep "mastodon" s'.id = false := by
      intro st0 hst0 hmem
      rcases ih st0 id hmem with hin | ⟨s', hs', hid, hnp⟩
      · exact Or.inl (hst0 ▸ hin)
      · exact Or.inr ⟨s', List.mem_cons_of_mem _ hs', hid, hnp⟩
    cases hc : s.createdAt with
    | none =>
      simp only [processStatuses, hc] at h
      exact weaken st rfl h
    | some t =>
      simp only [processStatuses, hc] at h
      by_cases ht : cfg.cutoff ≤ t
      · rw [if_pos ht] at h
        exact weaken st rfl h
      · rw [if_neg ht] at h
        by_cases hrb : (s.reblog && !cfg.deleteReposts) = true
        · rw [if_pos hrb] at h
          refine weaken _ ?_ h
          rfl
        · rw [if_neg (by simp [hrb])] at h
          by_cases hpn : (s.pinned && !cfg.deletePinned) = true
          · rw [if_pos hpn] at h
            refine weaken _ ?_ h
            rfl
          · rw [if_neg (by simp [hpn])] at h
            by_cases hk : is_protected keep "mastodon" s.id = true
            · rw [if_pos hk] at h
              refine weaken _ ?_ h
              rfl
            · rw [if_neg (by simp [hk])] at h
              by_cases hd : cfg.dryRun = true
              · rw [if_pos hd] at h
                refine weaken _ ?_ h
                rfl
              · rw [if_neg hd] at h
                have hk' : is_protected keep "mastodon" s.id = false := by
                  simpa using hk
                have hcs :
                    ∀ st1 : Counters, st1.calls = st.calls ++ [s.id] →
                      id ∈ (processStatuses cfg keep del rest st1).calls →
                      id ∈ st.calls ∨ ∃ s' ∈ s :: rest, s'.id = id ∧
                        is_protected keep "mastodon" s'.id = false := by
                  intro st1 hst1 hmem
                  rcases ih st1 id hmem with hin | ⟨s', hs', hid, hnp⟩
                  · rw [hst1] at hin
                    rcases List.mem_append.mp hin with hin | hin
                    · exact Or.inl hin
                    · refine Or.inr ⟨s, List.mem_cons_self .., ?_, hk'⟩
                      exact (List.mem_singleton.mp hin).symm
                  · exact Or.inr ⟨s', List.mem_cons_of_mem _ hs', hid, hnp⟩
                cases hdel : del s.id with
                | ok =>
                  rw [hdel] at h
                  refine hcs _ ?_ h
                  rfl
                | rateLimited =>
                  rw [hdel] at h
                  simp only [List.mem_append, List.mem_singleton] at h
                  rcases h with hin | hin
                  · exact Or.inl hin
                  · exact Or.inr ⟨s, List.mem_cons_self .., hin.symm, hk'⟩
                | otherErr =>
                  rw [hdel] at h
                  refine hcs _ ?_ h
                  rfl

theorem statusesLoop_protected (cfg : Config) (keep : List String)
    (del : String → DeleteOutcome) (id : String)
    (hprot : is_protected keep "mastodon" id = true) :
    ∀ (pages : List (Option (List Status))) (st st' : Counters),
      statusesLoop cfg keep del pages st = .ok st' →
      id ∉ st.calls → id ∉ st'.calls := by
  intro pages
  induction pages with
  | nil =>
    intro st st' h hnot
    cases h
    exact hnot
  | cons pg rest ih =>
    intro st st' h hnot
    cases pg with
    | none => simp [statusesLoop] at h
    | some pg =>
      simp only [statusesLoop] at h
      by_cases he : pg.isEmpty
      · rw [if_pos he] at h
        cases h
        exact hnot
      · rw [if_neg (by simp [he])] at h
        refine ih _ _ h ?_
        intro hmem
        rcases processStatuses_calls_protected cfg keep del pg st id hmem with
          hin | ⟨s, _, hid, hnp⟩
        · exact hnot hin
        · rw [hid] at hnp
          rw [hprot] at hnp
          cases hnp

theorem processFavourites_spec (cfg : Config) (keep : List String)
    (unfav : String → DeleteOutcome) :
    ∀ (l : List Status) (st : FavCounters),
      ∃ new, (processFavourites cfg keep unfav l st).1.favCalls = st.favCalls ++ new ∧
        ((processFavourites cfg keep unfav l st).2 = true →
          ∃ pre c, new = pre ++ [c] ∧ unfav c = .rateLimited ∧
            ∀ x ∈ pre, unfav x ≠ .rateLimited) ∧
        ((processFavourites cfg keep unfav l st).2 = false →
          ∀ x ∈ new, unfav x ≠ .rateLimited) := by
  intro l
  induction l with
  | nil =>
    intro st
    exact ⟨[], by simp [processFavourites], by simp [processFavourites], by
      simp [processFavourites]⟩
  | cons s rest ih =>
    intro st
    cases hc : s.createdAt with
    | none =>
      simpa only [processFavourites, hc] using ih st
    | some t =>
      simp only [processFavourites, hc]
      by_cases ht : cfg.cutoff ≤ t
      · simpa only [if_pos ht] using ih st
      · rw [if_neg ht]
        by_cases hk : is_protected keep "mastodon" s.id = true
        · rw [if_pos hk]
          exact ih _
        · rw [if_neg (by simp [hk])]
          by_cases hd : cfg.dryRun = true
          · rw [if_pos hd]
            exact ih _
          · rw [if_neg hd]
            cases hdel : unfav s.id with
            | ok =>
              obtain ⟨new, hcalls, hT, hF⟩ :=
                ih { st with favCalls := st.favCalls ++ [s.id], favDeleted := st.favDeleted + 1 }
              refine ⟨s.id :: new, by simpa using hcalls, ?_, ?_⟩
              · intro hb
                obtain ⟨pre, c, hnew, hrl, hpre⟩ := hT hb
                refine ⟨s.id :: pre, c, by simp [hnew], hrl, ?_⟩
                intro x hx
                rcases List.mem_cons.mp hx with hx | hx
                · rw [hx, hdel]; intro hcon; cases hcon
                · exact hpre x hx
              · intro hb x hx
                rcases List.mem_cons.mp hx with hx | hx
                · rw [hx, hdel]; intro hcon; cases hcon
                · exact hF hb x hx
            | rateLimited =>
              refine ⟨[s.id], by simp, ?_, ?_⟩
              · intro _
                exact ⟨[], s.id, by simp, hdel, by simp⟩
              · intro hb
                cases hb
            | otherErr =>
              obtain ⟨new, hcalls, hT, hF⟩ :=
                ih { st with favCalls := st.favCalls ++ [s.id] }
              refine ⟨s.id :: new, by simpa using hcalls, ?_, ?_⟩
              · intro hb
                obtain ⟨pre, c, hnew, hrl, hpre⟩ := hT hb
                refine ⟨s.id :: pre, c, by simp [hnew], hrl, ?_⟩
                intro x hx
                rcases List.mem_cons.mp hx with hx | hx
                · rw [hx, hdel]; intro hcon; cases hcon
                · exact hpre x hx
              · intro hb x hx
                rcases List.mem_cons.mp hx with hx | hx
                · rw [hx, hdel]; intro hcon; cases hcon
                · exact hF hb x hx

theorem append_singleton_decomp {α : Type} (p : α → Prop) (c' : α) :
    ∀ (pre A : List α) (c : α) (post : List α), A ++ [c'] = pre ++ c :: post →
      (∀ x ∈ A, ¬ p x) → p c → post = [] := by
  intro pre
  induction pre with
  | nil =>
    intro A c post h hA hc
    cases A with
    | nil =>
      simp only [List.nil_append] at h
      injection h with h1 h2
      exact h2.symm
    | cons a A' =>
      simp only [List.cons_append, List.nil_append] at h
      injection h with h1 h2
      exact absurd hc (h1 ▸ hA a (List.mem_cons_self ..))
  | cons q pre' ih =>
    intro A c post h hA hc
    cases A with
    | nil =>
      simp only [List.nil_append, List.cons_append] at h
      injection h with h1 h2
      simp at h2
    | cons a A' =>
      simp only [List.cons_append] at h
      injection h with h1 h2
      exact ih A' c post h2 (fun x hx => hA x (List.mem_cons_of_mem _ hx)) hc

theorem favouritesLoop_rl_last (cfg : Config) (keep : List String)
    (unfav : String → DeleteOutcome) :
    ∀ (pages : List (Option FavPage)) (st : FavCounters),
      (∀ x ∈ st.favCalls, unfav x ≠ .rateLimited) →
      ∀ (pre : List String) (c : String) (post : List String),
        (favouritesLoop cfg keep unfav pages st).favCalls = pre ++ c :: post →
        unfav c = .rateLimited → post = [] := by
  intro pages
  induction pages with
  | nil =>
    intro st hst pre c post h hrl
    exact absurd hrl (hst c (h ▸ List.mem_append.mpr (Or.inr (List.mem_cons_self ..))))
  | cons pg rest ih =>
    intro st hst pre c post h hrl
    cases pg with
    | none =>
      exact absurd hrl (hst c (h ▸ List.mem_append.mpr (Or.inr (List.mem_cons_self ..))))
    | some pg =>
      simp only [favouritesLoop] at h
      by_cases he : pg.items.isEmpty
      · rw [if_pos he] at h
        exact absurd hrl (hst c (h ▸ List.mem_append.mpr (Or.inr (List.mem_cons_self ..))))
      · rw [if_neg (by simp [he])] at h
        obtain ⟨new, hcalls, hT, hF⟩ := processFavourites_spec cfg keep unfav pg.items st
        rcases hp : processFavourites cfg keep unfav pg.items st with ⟨st', b⟩
        rw [hp] at hcalls hT hF h
        cases b with
        | true =>
          obtain ⟨preN, cN, hnew, hrlN, hpreN⟩ := hT rfl
          simp only at h hcalls
          rw [hcalls, hnew, ← List.append_assoc] at h
          refine append_singleton_decomp (fun x => unfav x = .rateLimited) cN pre
            (st.favCalls ++ preN) c post h ?_ hrl
          intro x hx
          rcases List.mem_append.mp hx with hx | hx
          · exact hst x hx
          · exact hpreN x hx
        | false =>
          have hall : ∀ x ∈ st'.favCalls, unfav x ≠ .rateLimited := by
            intro x hx
            rw [hcalls] at hx
            rcases List.mem_append.mp hx with hx | hx
            · exact hst x hx
            · exact hF rfl x hx
          simp only at h
          by_cases hn : pg.nextMaxId.isNone
          · rw [if_pos hn] at h
            exact absurd hrl
              (hall c (h ▸ List.mem_append.mpr (Or.inr (List.mem_cons_self ..))))
          · rw [if_neg hn] at h
            exact ih st' hall pre c post h hrl

theorem processFavourites_dry_live (cfg : Config) (keep : List String)
    (unfav : String → DeleteOutcome) :
    ∀ (l : List Status) (stD stL : FavCounters), sameFav stD stL →
      sameFav (processFavourites { cfg with dryRun := true } keep unfav l stD).1
          (processFavourites { cfg with dryRun := false } keep (fun _ => .ok) l stL).1 ∧
        (processFavourites { cfg with dryRun := true } keep unfav l stD).2 = false ∧
        (processFavourites { cfg with dryRun := false } keep (fun _ => .ok) l stL).2 =
          false := by
  intro l
  induction l with
  | nil =>
    intro stD stL h
    exact ⟨h, rfl, rfl⟩
  | cons s rest ih =>
    intro stD stL h
    obtain ⟨h1, h2⟩ := h
    cases hc : s.createdAt with
    | none =>
      simp only [processFavourites, hc]
      exact ih stD stL ⟨h1, h2⟩
    | some t =>
      simp only [processFavourites, hc]
      by_cases ht : cfg.cutoff ≤ t
      · simp only [ht, if_true]
        exact ih stD stL ⟨h1, h2⟩
      · simp only [ht, if_false]
        by_cases hk : is_protected keep "mastodon" s.id = true
        · simp only [hk, if_true]
          exact ih _ _ ⟨h1, by simp [h2]⟩
        · simp only [hk, Bool.false_eq_true, if_false, if_true]
          exact ih _ _ ⟨by simp [h1], h2⟩

theorem processFavourites_dry_calls (cfg : Config) (keep : List String)
    (unfav : String → DeleteOutcome) (hd : cfg.dryRun = true) :
    ∀ (l : List Status) (st : FavCounters),
      (processFavourites cfg keep unfav l st).1.favCalls = st.favCalls ∧
        (processFavourites cfg keep unfav l st).2 = false := by
  intro l
  induction l with
  | nil => intro st; exact ⟨rfl, rfl⟩
  | cons s rest ih =>
    intro st
    cases hc : s.createdAt with
    | none => simpa only [processFavourites, hc] using ih st
    | some t =>
      simp only [processFavourites, hc]
      by_cases ht : cfg.cutoff ≤ t
      · simpa only [if_pos ht] using ih st
      · rw [if_neg ht]
        by_cases hk : is_protected keep "mastodon" s.id = true
        · rw [if_pos hk]
          exact ih _
        · rw [if_neg (by simp [hk]), if_pos hd]
          exact ih _

theorem favouritesLoop_dry_live (cfg : Config) (keep : List String)
    (unfav : String → DeleteOutcome) :
    ∀ (pages : List (Option FavPage)) (stD stL : FavCounters), sameFav stD stL →
      sameFav (favouritesLoop { cfg with dryRun := true } keep unfav pages stD)
        (favouritesLoop { cfg with dryRun := false } keep (fun _ => .ok) pages stL) := by
  intro pages
  induction pages with
  | nil => intro stD stL h; exact h
  | cons pg rest ih =>
    intro stD stL h
    cases pg with
    | none => exact h
    | some pg =>
      simp only [favouritesLoop]
      by_cases he : pg.items.isEmpty
      · simpa [he] using h
      · rw [if_neg (by simp [he]), if_neg (by simp [he])]
        obtain ⟨hsim, hbD, hbL⟩ := processFavourites_dry_live cfg keep unfav pg.items stD stL h
        rcases hpD : processFavourites { cfg with dryRun := true } keep unfav pg.items stD
          with ⟨stD', bD⟩
        rcases hpL : processFavourites { cfg with dryRun := false } keep (fun _ => .ok)
          pg.items stL with ⟨stL', bL⟩
        rw [hpD] at hsim hbD
        rw [hpL] at hsim hbL
        simp only at hsim hbD hbL
        subst hbD
        subst hbL
        by_cases hn : pg.nextMaxId.isNone
        · simpa [hn] using hsim
        · simp only [hn, Bool.false_eq_true, if_false]
          exact ih _ _ hsim

theorem favouritesLoop_dry_calls (cfg : Config) (keep : List String)
    (unfav : String → DeleteOutcome) (hd : cfg.dryRun = true) :
    ∀ (pages : List (Option FavPage)) (st : FavCounters),
      (favouritesLoop cfg keep unfav pages st).favCalls = st.favCalls := by
  intro pages
  induction pages with
  | nil => intro st; rfl
  | cons pg rest ih =>
    intro st
    cases pg with
    | none => rfl
    | some pg =>
      simp only [favouritesLoop]
      by_cases he : pg.items.isEmpty
      · simp [he]
      · rw [if_neg (by simp [he])]
        obtain ⟨hcalls, hb⟩ := processFavourites_dry_calls cfg keep unfav hd pg.items st
        rcases hp : processFavourites cfg keep unfav pg.items st with ⟨st', b⟩
        rw [hp] at hcalls hb
        simp only at hcalls hb
        subst hb
        by_cases hn : pg.nextMaxId.isNone
        · simpa [hn] using hcalls
        · simp only [hn, Bool.false_eq_true, if_false]
          rw [ih st', hcalls]

end Mastodon

namespace Threads

theorem processPosts_dry_live (cfg : Config) (keep : List String)
    (del : String → ThreadsDel) :
    ∀ (l : List ThreadsPost) (stD stL : ThreadsState), sameT stD stL →
      ∃ stD' stL',
        processPosts { cfg with dryRun := true } keep del l stD = .ok stD' ∧
        processPosts { cfg with dryRun := false } keep (fun _ => .ok) l stL = .ok stL' ∧
        sameT stD' stL' ∧ stD'.calls = stD.calls := by
  intro l
  induction l with
  | nil =>
    intro stD stL h
    exact ⟨stD, stL, rfl, rfl, h, rfl⟩
  | cons p rest ih =>
    intro stD stL h
    obtain ⟨h1, h2⟩ := h
    cases hc : p.timestamp with
    | none =>
      simp only [processPosts, hc]
      exact ih stD stL ⟨h1, h2⟩
    | some t =>
      simp only [processPosts, hc]
      by_cases ht : cfg.cutoff ≤ t
      · simp only [ht, if_true]
        exact ih stD stL ⟨h1, h2⟩
      · simp only [ht, if_false]
        by_cases hk : is_protected keep "threads" p.id = true
        · simp only [hk, if_true]
          exact ih _ _ ⟨h1, by simp [h2]⟩
        · simp only [hk, Bool.false_eq_true, if_false, if_true]
          exact ih _ _ ⟨by simp [h1], h2⟩

theorem delete_old_posts_dry_live (cfg : Config) (keep : List String)
    (del : String → ThreadsDel) :
    ∀ (pages : List ThreadsPage) (stD stL : ThreadsState), sameT stD stL →
      stD.calls = [] →
      ∃ stD' stL',
        delete_old_posts { cfg with dryRun := true } keep del (pages.map some) stD =
          .ok stD' ∧
        delete_old_posts { cfg with dryRun := false } keep (fun _ => .ok)
          (pages.map some) stL = .ok stL' ∧
        sameT stD' stL' ∧ stD'.calls = [] := by
  intro pages
  induction pages with
  | nil =>
    intro stD stL h hcl
    exact ⟨stD, stL, rfl, rfl, h, hcl⟩
  | cons pg rest ih =>
    intro stD stL h hcl
    simp only [List.map_cons, delete_old_posts]
    by_cases he : pg.data.isEmpty
    · rw [if_pos he, if_pos he]
      exact ⟨stD, stL, rfl, rfl, h, hcl⟩
    · rw [if_neg (by simp [he]), if_neg (by simp [he])]
      obtain ⟨stD', stL', e1, e2, hsim, hcalls⟩ := processPosts_dry_live cfg keep del
        pg.data stD stL h
      rw [e1, e2]
      dsimp only
      by_cases hn : pg.after.isNone
      · rw [if_pos hn, if_pos hn]
        exact ⟨stD', stL', rfl, rfl, hsim, hcalls.trans hcl⟩
      · rw [if_neg hn, if_neg hn]
        exact ih stD' stL' hsim (hcalls.trans hcl)

end Threads

namespace Bluesky

theorem chunk_loop (cfg : Config) (keep : List String) (pinnedUri : Option String)
    (delOk : String → Bool) (k : Nat) :
    ∀ (n : Nat) (l : List Record), l.length ≤ n → ∀ st : DeleteResult,
      delete_old_records cfg keep pinnedUri delOk ((chunkPages k l).map some) st =
        .ok (l.foldl (step cfg keep pinnedUri delOk) st) := by
  intro n
  induction n with
  | zero =>
    intro l hl st
    have : l = [] := List.length_eq_zero.mp (Nat.le_zero.mp hl)
    subst this
    simp [chunkPages, delete_old_records]
  | succ n ih =>
    intro l hl st
    rw [chunkPages]
    by_cases hle : l.length ≤ k + 1
    · rw [if_pos hle]
      simp only [List.map_cons, List.map_nil, delete_old_records]
      by_cases he : l.isEmpty
      · rw [if_pos he]
        rw [List.isEmpty_iff.mp he]
        rfl
      · rw [if_neg (by simp [he])]
        simp [delete_old_records]
    · rw [if_neg hle]
      simp only [List.map_cons, delete_old_records]
      have hne : (l.take (k + 1)).isEmpty = false := by
        rw [List.isEmpty_eq_false_iff_exists_mem]
        rcases l with _ | ⟨a, l'⟩
        · simp at hle
        · exact ⟨a, by simp⟩
      rw [if_neg (by simp [hne])]
      simp only [Option.isNone_some, Bool.false_eq_true, if_false]
      rw [ih (l.drop (k + 1)) (by simp; omega)]
      rw [← List.foldl_append, List.take_append_drop]

theorem chunk_evaluated (k : Nat) :
    ∀ (n : Nat) (l : List Record), l.length ≤ n →
      evaluated ((chunkPages k l).map some) = l := by
  intro n
  induction n with
  | zero =>
    intro l hl
    have : l = [] := List.length_eq_zero.mp (Nat.le_zero.mp hl)
    subst this
    simp [chunkPages, evaluated]
  | succ n ih =>
    intro l hl
    rw [chunkPages]
    by_cases hle : l.length ≤ k + 1
    · rw [if_pos hle]
      simp only [List.map_cons, List.map_nil, evaluated]
      by_cases he : l.isEmpty
      · simp [he, List.isEmpty_iff.mp he]
      · simp [he]
    · rw [if_neg hle]
      simp only [List.map_cons, evaluated]
      have hne : (l.take (k + 1)).isEmpty = false := by
        rw [List.isEmpty_eq_false_iff_exists_mem]
        rcases l with _ | ⟨a, l'⟩
        · simp at hle
        · exact ⟨a, by simp⟩
      rw [if_neg (by simp [hne])]
      simp only [Option.isNone_some, Bool.false_eq_true, if_false]
      rw [ih (l.drop (k + 1)) (by simp; omega), List.take_append_drop]

end Bluesky

namespace Bluesky

theorem bsky_pass_pure (cfg : Config) (keep : List String) (lookupPinned : Option String)
    (delOk : String → String → Bool) (pp rp lp : List ListRecordsResponse) :
    delete_old_posts cfg keep true lookupPinned delOk (pp.map some) (rp.map some)
        (lp.map some) =
      .ok ⟨(evaluated (pp.map some)).foldl
          (step cfg keep (if !cfg.deletePinned then lookupPinned else none)
            (delOk "app.bsky.feed.post")) initResult,
        if cfg.deleteReposts then
          some ((evaluated (rp.map some)).foldl
            (step cfg keep none (delOk "app.bsky.feed.repost")) initResult)
        else none,
        if cfg.deleteLikes then
          some ((evaluated (lp.map some)).foldl
            (step cfg keep none (delOk "app.bsky.feed.like")) initResult)
        else none⟩ := by
  simp only [delete_old_posts, if_true, delete_old_records_pure]
  by_cases hr : cfg.deleteReposts <;> by_cases hl : cfg.deleteLikes <;>
    simp [hr, hl, delete_old_records_pure, Except.map]

end Bluesky

/-- C1: In every engine a record whose parsed timestamp is at or after the
cutoff leaves the pass state completely unchanged — it is neither deleted
nor dry-run-counted, at whatever position in whatever page it appears
(conjuncts 1–4); at run level, every delete call a Bluesky pass issues
names an evaluated record whose parsed timestamp is strictly before the
cutoff (conjunct 5); and a record strictly older than the cutoff with no
disqualifying condition (repost flag, pinned status, protection) is counted
as deleted in dry-run mode, and in live mode the delete call is issued and
counted on success (conjuncts 6–8). -/
theorem cutoff_correctness :
    (∀ (cfg : Config) (keep : List String) (pinnedUri : Option String)
        (delOk : String → Bool) (st : Bluesky.DeleteResult) (r : Bluesky.Record) (t : Int),
      r.createdAt = some (some t) → cfg.cutoff ≤ t →
      Bluesky.step cfg keep pinnedUri delOk st r = st) ∧
    (∀ (cfg : Config) (keep : List String) (del : String → Mastodon.DeleteOutcome)
        (rest : List Mastodon.Status) (st : Mastodon.Counters) (s : Mastodon.Status)
        (t : Int),
      s.createdAt = some t → cfg.cutoff ≤ t →
      Mastodon.processStatuses cfg keep del (s :: rest) st =
        Mastodon.processStatuses cfg keep del rest st) ∧
    (∀ (cfg : Config) (keep : List String) (unfav : String → Mastodon.DeleteOutcome)
        (rest : List Mastodon.Status) (st : Mastodon.FavCounters) (s : Mastodon.Status)
        (t : Int),
      s.createdAt = some t → cfg.cutoff ≤ t →
      Mastodon.processFavourites cfg keep unfav (s :: rest) st =
        Mastodon.processFavourites cfg keep unfav rest st) ∧
    (∀ (cfg : Config) (keep : List String) (del : String → Threads.ThreadsDel)
        (rest : List Threads.ThreadsPost) (st : Threads.ThreadsState)
        (p : Threads.ThreadsPost) (t : Int),
      p.timestamp = some t → cfg.cutoff ≤ t →
      Threads.processPosts cfg keep del (p :: rest) st =
        Threads.processPosts cfg keep del rest st) ∧
    (∀ (cfg : Config) (keep : List String) (pinnedUri : Option String)
        (delOk : String → Bool) (pages : List (Option Bluesky.ListRecordsResponse))
        (st' : Bluesky.DeleteResult),
      Bluesky.delete_old_records cfg keep pinnedUri delOk pages Bluesky.initResult =
        .ok st' →
      ∀ c ∈ st'.calls, ∃ r ∈ Bluesky.evaluated pages, Bluesky.rkeyOf r.uri = c ∧
        ∃ t : Int, r.createdAt = some (some t) ∧ t < cfg.cutoff) ∧
    (∀ (cfg : Config) (keep : List String) (pinnedUri : Option String)
        (delOk : String → Bool) (st : Bluesky.DeleteResult) (r : Bluesky.Record) (t : Int),
      r.createdAt = some (some t) → t < cfg.cutoff →
      pinnedUri ≠ some r.uri →
      is_protected keep "bluesky" (Bluesky.rkeyOf r.uri) = false →
      is_protected keep "bluesky" r.uri = false →
      (cfg.dryRun = true →
        Bluesky.step cfg keep pinnedUri delOk st r = { st with deleted := st.deleted + 1 }) ∧
      (cfg.dryRun = false → delOk (Bluesky.rkeyOf r.uri) = true →
        Bluesky.step cfg keep pinnedUri delOk st r =
          { st with deleted := st.deleted + 1
                    calls := st.calls ++ [Bluesky.rkeyOf r.uri] })) ∧
    (∀ (cfg : Config) (keep : List String) (del : String → Mastodon.DeleteOutcome)
        (rest : List Mastodon.Status) (st : Mastodon.Counters) (s : Mastodon.Status)
        (t : Int),
      s.createdAt = some t → t < cfg.cutoff →
      (s.reblog && !cfg.deleteReposts) = false →
      (s.pinned && !cfg.deletePinned) = false →
      is_protected keep "mastodon" s.id = false →
      (cfg.dryRun = true →
        Mastodon.processStatuses cfg keep del (s :: rest) st =
          Mastodon.processStatuses cfg keep del rest
            { st with deleted := st.deleted + 1 }) ∧
      (cfg.dryRun = false → del s.id = .ok →
        Mastodon.processStatuses cfg keep del (s :: rest) st =
          Mastodon.processStatuses cfg keep del rest
            { st with deleted := st.deleted + 1, calls := st.calls ++ [s.id] })) ∧
    (∀ (cfg : Config) (keep : List String) (del : String → Threads.ThreadsDel)
        (rest : List Threads.ThreadsPost) (st : Threads.ThreadsState)
        (p : Threads.ThreadsPost) (t : Int),
      p.timestamp = some t → t < cfg.cutoff →
      is_protected keep "threads" p.id = false →
      (cfg.dryRun = true →
        Threads.processPosts cfg keep del (p :: rest) st =
          Threads.processPosts cfg keep del rest { st with deleted := st.deleted + 1 }) ∧
      (cfg.dryRun = false → del p.id = .ok →
        Threads.processPosts cfg keep del (p :: rest) st =
          Threads.processPosts cfg keep del rest
            { st with deleted := st.deleted + 1, calls := st.calls ++ [p.id] })) := by
  refine ⟨?_, ?_, ?_, ?_, ?_, ?_, ?_, ?_⟩
  · intro cfg keep pinnedUri delOk st r t hca hge
    rw [Bluesky.step_eq]
    have ho : Bluesky.oldParsed cfg r = false := by
      simp [Bluesky.oldParsed, hca, not_lt.mpr hge]
    simp [ho]
  · intro cfg keep del rest st s t hca hge
    simp only [Mastodon.processStatuses, hca]
    rw [if_pos hge]
  · intro cfg keep unfav rest st s t hca hge
    simp only [Mastodon.processFavourites, hca]
    rw [if_pos hge]
  · intro cfg keep del rest st p t hca hge
    simp only [Threads.processPosts, hca]
    rw [if_pos hge]
  · intro cfg keep pinnedUri delOk pages st' hok c hc
    have := Bluesky.delete_old_records_ok cfg keep pinnedUri delOk pages _ _ hok
    subst this
    rw [Bluesky.foldl_calls] at hc
    simp only [Bluesky.initResult, List.nil_append] at hc
    obtain ⟨r, hrf, rfl⟩ := List.mem_map.mp hc
    obtain ⟨hre, hcond⟩ := List.mem_filter.mp hrf
    have helig : Bluesky.eligible cfg keep pinnedUri r = true := by
      simp only [Bool.and_eq_true] at hcond
      exact hcond.1
    have ho : Bluesky.oldParsed cfg r = true := by
      have h' := helig
      unfold Bluesky.eligible at h'
      simp only [Bool.and_eq_true] at h'
      exact h'.1.1
    refine ⟨r, hre, rfl, ?_⟩
    unfold Bluesky.oldParsed at ho
    rcases hca : r.createdAt with _ | ts
    · rw [hca] at ho
      cases ho
    · rcases ts with _ | t
      · rw [hca] at ho
        cases ho
      · rw [hca] at ho
        exact ⟨t, rfl, of_decide_eq_true ho⟩
  · intro cfg keep pinnedUri delOk st r t hca hlt hpin hk1 hk2
    have ho : Bluesky.oldParsed cfg r = true := by
      simp [Bluesky.oldParsed, hca, hlt]
    have hp : Bluesky.pinnedHit pinnedUri r = false := by
      simp [Bluesky.pinnedHit, hpin]
    have hk : Bluesky.protectedHit keep r = false := by
      simp [Bluesky.protectedHit, hk1, hk2]
    constructor
    · intro hd
      rw [Bluesky.step_eq]
      simp [ho, hp, hk, hd]
    · intro hd hdel
      rw [Bluesky.step_eq]
      simp [ho, hp, hk, hd, hdel]
  · intro cfg keep del rest st s t hca hlt hrb hpn hk
    have hge : ¬ cfg.cutoff ≤ t := not_le.mpr hlt
    constructor
    · intro hd
      simp only [Mastodon.processStatuses, hca]
      rw [if_neg hge, if_neg (by simp [hrb]), if_neg (by simp [hpn]),
        if_neg (by simp [hk]), if_pos hd]
    · intro hd hdel
      simp only [Mastodon.processStatuses, hca]
      rw [if_neg hge, if_neg (by simp [hrb]), if_neg (by simp [hpn]),
        if_neg (by simp [hk]), if_neg (by simp [hd]), hdel]
  · intro cfg keep del rest st p t hca hlt hk
    have hge : ¬ cfg.cutoff ≤ t := not_le.mpr hlt
    constructor
    · intro hd
      simp only [Threads.processPosts, hca]
      rw [if_neg hge, if_neg (by simp [hk]), if_pos hd]
    · intro hd hdel
      simp only [Threads.processPosts, hca]
      rw [if_neg hge, if_neg (by simp [hk]), if_neg (by simp [hd]), hdel]

/-- C1 witness: the conjuncts of `cutoff_correctness` applied at concrete
records: the too-recent record `rNew` is a no-op for the pass state, and the
old unprotected record `rOld` is deleted in a live run. -/
theorem cutoff_correctness_witness :
    Bluesky.step cfgLive [] none (fun _ => true) Bluesky.initResult rNew =
      Bluesky.initResult ∧
    Bluesky.step cfgLive [] none (fun _ => true) Bluesky.initResult rOld =
      { Bluesky.initResult with deleted := Bluesky.initResult.deleted + 1, calls := Bluesky.initResult.calls ++ [Bluesky.rkeyOf rOld.uri] } := by
  constructor
  · exact cutoff_correctness.1 cfgLive [] none (fun _ => true) Bluesky.initResult rNew 5
      rfl (by decide)
  · exact (cutoff_correctness.2.2.2.2.2.1 cfgLive [] none (fun _ => true)
      Bluesky.initResult rOld (-5) rfl (by decide) (by decide) rfl rfl).2 rfl rfl

/-- C2: an identifier is protected exactly when the keep set contains
`"platform:id"` or the bare `id` (conjunct 1); protection strictly precedes
any deletion side effect: an old, otherwise-deletable but protected record
is counted skipped-protected and no delete call is recorded — in the
Mastodon item loop (conjunct 2) and in the Bluesky per-record step
(conjunct 3) — and at run level a protected id never appears in the
Mastodon statuses pass's delete-call trace, whatever the pages and delete
outcomes (conjunct 4). -/
theorem protection_semantics :
    (∀ (keep : List String) (platform id : String),
      is_protected keep platform id = true ↔
        (platform ++ ":" ++ id) ∈ keep ∨ id ∈ keep) ∧
    (∀ (cfg : Config) (keep : List String) (del : String → Mastodon.DeleteOutcome)
        (rest : List Mastodon.Status) (st : Mastodon.Counters) (s : Mastodon.Status)
        (t : Int),
      s.createdAt = some t → t < cfg.cutoff →
      (s.reblog && !cfg.deleteReposts) = false →
      (s.pinned && !cfg.deletePinned) = false →
      is_protected keep "mastodon" s.id = true →
      Mastodon.processStatuses cfg keep del (s :: rest) st =
        Mastodon.processStatuses cfg keep del rest
          { st with skippedKept := st.skippedKept + 1 }) ∧
    (∀ (cfg : Config) (keep : List String) (pinnedUri : Option String)
        (delOk : String → Bool) (st : Bluesky.DeleteResult) (r : Bluesky.Record) (t : Int),
      r.createdAt = some (some t) → t < cfg.cutoff →
      pinnedUri ≠ some r.uri →
      is_protected keep "bluesky" (Bluesky.rkeyOf r.uri) = true →
      Bluesky.step cfg keep pinnedUri delOk st r =
        { st with skippedKept := st.skippedKept + 1 }) ∧
    (∀ (cfg : Config) (keep : List String) (del : String → Mastodon.DeleteOutcome)
        (pages : List (Option (List Mastodon.Status))) (st' : Mastodon.Counters)
        (id : String),
      Mastodon.statusesLoop cfg keep del pages Mastodon.initCounters = .ok st' →
      is_protected keep "mastodon" id = true →
      id ∉ st'.calls) := by
  refine ⟨?_, ?_, ?_, ?_⟩
  · intro keep platform id
    simp [is_protected]
  · intro cfg keep del rest st s t hca hlt hrb hpn hk
    simp only [Mastodon.processStatuses, hca]
    rw [if_neg (not_le.mpr hlt), if_neg (by simp [hrb]), if_neg (by simp [hpn]),
      if_pos hk]
  · intro cfg keep pinnedUri delOk st r t hca hlt hpin hk
    rw [Bluesky.step_eq]
    have ho : Bluesky.oldParsed cfg r = true := by
      simp [Bluesky.oldParsed, hca, hlt]
    have hp : Bluesky.pinnedHit pinnedUri r = false := by
      simp [Bluesky.pinnedHit, hpin]
    have hkk : Bluesky.protectedHit keep r = true := by
      simp [Bluesky.protectedHit, hk]
    simp [ho, hp, hkk]
  · intro cfg keep del pages st' id hok hprot
    exact Mastodon.statusesLoop_protected cfg keep del id hprot pages
      Mastodon.initCounters st' hok (by simp [Mastodon.initCounters])

/-- C2 witness: the conjuncts of `protection_semantics` applied at concrete
inputs: the keep entry "bluesky:abc123" protects the old record `rOld`, and
a protected Mastodon id never shows up in the delete-call trace. -/
theorem protection_semantics_witness :
    (is_protected ["bluesky:abc123"] "bluesky" "abc123" = true ↔
      ("bluesky" ++ ":" ++ "abc123") ∈ ["bluesky:abc123"] ∨
        "abc123" ∈ ["bluesky:abc123"]) ∧
    Bluesky.step cfgLive ["bluesky:abc123"] none (fun _ => true) Bluesky.initResult
      rOld = { Bluesky.initResult with skippedKept := Bluesky.initResult.skippedKept + 1 } ∧
    "P" ∉ (⟨0, 0, 1, 0, []⟩ : Mastodon.Counters).calls := by
  refine ⟨protection_semantics.1 ["bluesky:abc123"] "bluesky" "abc123", ?_, ?_⟩
  · exact protection_semantics.2.2.1 cfgLive ["bluesky:abc123"] none (fun _ => true)
      Bluesky.initResult rOld (-5) rfl (by decide) (by decide) (by decide)
  · exact protection_semantics.2.2.2 cfgLive ["mastodon:P"] (fun _ => .ok)
      [some [sOld "P"]] ⟨0, 0, 1, 0, []⟩ "P" rfl (by decide)

/-- C3 counterexample: the claim says that after the Mth rate-limited
delete no further delete call of the pass is attempted and the counters
reflect only the first M-1 successes.  In the Mastodon statuses pass,
however, the rate-limit `break` only exits the current page's item loop:
with delete("A") rate-limited (M = 1), the pass still fetches the second
page and issues and counts the delete of "C" — the trace is ["A", "C"] and
`deleted = 1`, not 0. -/
theorem rate_limit_counterexample :
    Mastodon.statusesLoop cfgLive [] delC3 pagesC3 Mastodon.initCounters =
      .ok ⟨1, 0, 0, 0, ["A", "C"]⟩ := rfl

/-- C3 amended: only the Mastodon favourites pass short-circuits on rate
limiting: a rate-limited unfavourite call is always the final call of the
pass, which returns normally (the loop is total and keeps its counters)
(conjunct 1).  In the Mastodon statuses pass a rate-limited delete only
drops the remaining items of the current page — the call is recorded and
the page's remaining items are never reached (conjunct 2) — while later
pages are still processed (see the counterexample); Bluesky and Threads
make no rate-limit distinction at all. -/
theorem rate_limit_short_circuit :
    (∀ (cfg : Config) (keep : List String) (unfav : String → Mastodon.DeleteOutcome)
        (pages : List (Option Mastodon.FavPage)) (pre : List String) (c : String)
        (post : List String),
      (Mastodon.favouritesLoop cfg keep unfav pages Mastodon.initFavCounters).favCalls =
        pre ++ c :: post →
      unfav c = .rateLimited → post = []) ∧
    (∀ (cfg : Config) (keep : List String) (del : String → Mastodon.DeleteOutcome)
        (rest : List Mastodon.Status) (st : Mastodon.Counters) (s : Mastodon.Status)
        (t : Int),
      s.createdAt = some t → t < cfg.cutoff →
      (s.reblog && !cfg.deleteReposts) = false →
      (s.pinned && !cfg.deletePinned) = false →
      is_protected keep "mastodon" s.id = false →
      cfg.dryRun = false → del s.id = .rateLimited →
      Mastodon.processStatuses cfg keep del (s :: rest) st =
        { st with calls := st.calls ++ [s.id] }) := by
  constructor
  · intro cfg keep unfav pages pre c post h hrl
    exact Mastodon.favouritesLoop_rl_last cfg keep unfav pages Mastodon.initFavCounters
      (by simp [Mastodon.initFavCounters]) pre c post h hrl
  · intro cfg keep del rest st s t hca hlt hrb hpn hk hd hdel
    simp only [Mastodon.processStatuses, hca]
    rw [if_neg (not_le.mpr hlt), if_neg (by simp [hrb]), if_neg (by simp [hpn]),
      if_neg (by simp [hk]), if_neg (by simp [hd]), hdel]

/-- C3 witness: `rate_limit_short_circuit` applied at concrete inputs: in
the favourites run over `favPagesC3` the rate-limited call "A" is the last
call of the pass, and in the statuses item loop the rate-limited delete of
"A" drops the rest of the page. -/
theorem rate_limit_short_circuit_witness :
    ((Mastodon.favouritesLoop cfgLive [] delC3 favPagesC3
        Mastodon.initFavCounters).favCalls = ["X"] ++ "A" :: [] ∧
      delC3 "A" = .rateLimited ∧ ([] : List String) = []) ∧
    Mastodon.processStatuses cfgLive [] delC3 [sOld "A", sOld "B"]
        Mastodon.initCounters =
      { Mastodon.initCounters with
          calls := Mastodon.initCounters.calls ++ [(sOld "A").id] } := by
  refine ⟨⟨rfl, rfl, ?_⟩, ?_⟩
  · exact rate_limit_short_circuit.1 cfgLive [] delC3 favPagesC3 ["X"] "A" [] rfl rfl
  · exact rate_limit_short_circuit.2 cfgLive [] delC3 [sOld "B"] Mastodon.initCounters
      (sOld "A") (-5) rfl (by decide) rfl rfl rfl rfl rfl

namespace Bluesky

theorem oldParsed_dryRun (cfg : Config) (x : Bool) (r : Record) :
    oldParsed { cfg with dryRun := x } r = oldParsed cfg r := rfl

theorem eligible_dryRun (cfg : Config) (x : Bool) (keep : List String)
    (pinnedUri : Option String) (r : Record) :
    eligible { cfg with dryRun := x } keep pinnedUri r = eligible cfg keep pinnedUri r :=
  rfl

end Bluesky

/-- C4: over a fixed record set (pure pages, no fetch failures), a dry run
issues zero delete / unfavourite calls and its counters coincide with those
of a live run in which every delete succeeds — for the Bluesky pass
(conjunct 1), the Mastodon statuses pass (conjunct 2), the Mastodon
favourites pass (conjunct 3, where even fetch failures are tolerated), and
the Threads pass (conjunct 4). -/
theorem dry_run_equivalence :
    (∀ (cfg : Config) (keep : List String) (pinnedUri : Option String)
        (delOk : String → Bool) (pages : List Bluesky.ListRecordsResponse),
      ∃ stD stL,
        Bluesky.delete_old_records { cfg with dryRun := true } keep pinnedUri delOk
          (pages.map some) Bluesky.initResult = .ok stD ∧
        Bluesky.delete_old_records { cfg with dryRun := false } keep pinnedUri
          (fun _ => true) (pages.map some) Bluesky.initResult = .ok stL ∧
        stD.calls = [] ∧ stD.deleted = stL.deleted ∧
        stD.skippedPinned = stL.skippedPinned ∧ stD.skippedKept = stL.skippedKept) ∧
    (∀ (cfg : Config) (keep : List String) (del : String → Mastodon.DeleteOutcome)
        (statusPages : List (List Mastodon.Status)),
      ∃ stD stL,
        Mastodon.statusesLoop { cfg with dryRun := true } keep del
          (statusPages.map some) Mastodon.initCounters = .ok stD ∧
        Mastodon.statusesLoop { cfg with dryRun := false } keep (fun _ => .ok)
          (statusPages.map some) Mastodon.initCounters = .ok stL ∧
        stD.calls = [] ∧ Mastodon.sameCounters stD stL) ∧
    (∀ (cfg : Config) (keep : List String) (unfav : String → Mastodon.DeleteOutcome)
        (favPages : List (Option Mastodon.FavPage)),
      (Mastodon.favouritesLoop { cfg with dryRun := true } keep unfav favPages
          Mastodon.initFavCounters).favCalls = [] ∧
      Mastodon.sameFav
        (Mastodon.favouritesLoop { cfg with dryRun := true } keep unfav favPages
          Mastodon.initFavCounters)
        (Mastodon.favouritesLoop { cfg with dryRun := false } keep (fun _ => .ok)
          favPages Mastodon.initFavCounters)) ∧
    (∀ (cfg : Config) (keep : List String) (del : String → Threads.ThreadsDel)
        (pages : List Threads.ThreadsPage),
      ∃ stD stL,
        Threads.delete_old_posts { cfg with dryRun := true } keep del (pages.map some)
          Threads.initThreads = .ok stD ∧
        Threads.delete_old_posts { cfg with dryRun := false } keep (fun _ => .ok)
          (pages.map some) Threads.initThreads = .ok stL ∧
        stD.calls = [] ∧ Threads.sameT stD stL) := by
  refine ⟨?_, ?_, ?_, ?_⟩
  · intro cfg keep pinnedUri delOk pages
    refine ⟨_, _, Bluesky.delete_old_records_pure _ _ _ _ _ _,
      Bluesky.delete_old_records_pure _ _ _ _ _ _, ?_, ?_, ?_, ?_⟩
    · rw [Bluesky.foldl_calls]
      simp [Bluesky.initResult]
    · rw [Bluesky.foldl_deleted, Bluesky.foldl_deleted]
      simp [Bluesky.eligible_dryRun]
    · rw [Bluesky.foldl_skippedPinned, Bluesky.foldl_skippedPinned]
      simp [Bluesky.oldParsed_dryRun]
    · rw [Bluesky.foldl_skippedKept, Bluesky.foldl_skippedKept]
      simp [Bluesky.oldParsed_dryRun]
  · intro cfg keep del statusPages
    refine ⟨_, _, Mastodon.statusesLoop_pure _ _ _ _ _,
      Mastodon.statusesLoop_pure _ _ _ _ _, ?_, ?_⟩
    · rw [Mastodon.statusesRun_dry_calls _ _ _ rfl]
      simp [Mastodon.initCounters]
    · exact Mastodon.statusesRun_dry_live cfg keep del statusPages _ _
        ⟨rfl, rfl, rfl, rfl⟩
  · intro cfg keep unfav favPages
    constructor
    · rw [Mastodon.favouritesLoop_dry_calls _ _ _ rfl]
      simp [Mastodon.initFavCounters]
    · exact Mastodon.favouritesLoop_dry_live cfg keep unfav favPages _ _ ⟨rfl, rfl⟩
  · intro cfg keep del pages
    obtain ⟨stD, stL, e1, e2, hsim, hcl⟩ :=
      Threads.delete_old_posts_dry_live cfg keep del pages Threads.initThreads
        Threads.initThreads ⟨rfl, rfl⟩ rfl
    exact ⟨stD, stL, e1, e2, hcl, hsim⟩

/-- C5: when `deletePinned` is true the Bluesky pinned lookup's value is
irrelevant — the pass is the same function of the pages whatever the lookup
would return, the engine receiving no pinned URI (conjunct 1), and with no
pinned URI the skipped-pinned counter never moves (conjunct 3), the pinned
record being eligible like any other (C1's positive conjuncts apply with
`pinnedUri = none`).  When `deletePinned` is false, an old record matching
the pinned URI (Bluesky, conjunct 2) or carrying the pinned flag (Mastodon,
conjunct 4) is counted skipped-pinned and never deleted, while with
`deletePinned` = true an old pinned Mastodon status is deleted like any
other (conjunct 5). -/
theorem pinned_exception :
    (∀ (cfg : Config) (keep : List String) (authOk : Bool) (l1 l2 : Option String)
        (delOk : String → String → Bool)
        (pp rp lp : List (Option Bluesky.ListRecordsResponse)),
      cfg.deletePinned = true →
      Bluesky.delete_old_posts cfg keep authOk l1 delOk pp rp lp =
        Bluesky.delete_old_posts cfg keep authOk l2 delOk pp rp lp) ∧
    (∀ (cfg : Config) (keep : List String) (delOk : String → Bool)
        (st : Bluesky.DeleteResult) (r : Bluesky.Record) (t : Int),
      r.createdAt = some (some t) → t < cfg.cutoff →
      Bluesky.step cfg keep (some r.uri) delOk st r =
        { st with skippedPinned := st.skippedPinned + 1 }) ∧
    (∀ (cfg : Config) (keep : List String) (delOk : String → Bool)
        (st : Bluesky.DeleteResult) (r : Bluesky.Record),
      (Bluesky.step cfg keep none delOk st r).skippedPinned = st.skippedPinned) ∧
    (∀ (cfg : Config) (keep : List String) (del : String → Mastodon.DeleteOutcome)
        (rest : List Mastodon.Status) (st : Mastodon.Counters) (s : Mastodon.Status)
        (t : Int),
      s.createdAt = some t → t < cfg.cutoff →
      (s.reblog && !cfg.deleteReposts) = false →
      s.pinned = true → cfg.deletePinned = false →
      Mastodon.processStatuses cfg keep del (s :: rest) st =
        Mastodon.processStatuses cfg keep del rest
          { st with skippedPinned := st.skippedPinned + 1 }) ∧
    (∀ (cfg : Config) (keep : List String) (del : String → Mastodon.DeleteOutcome)
        (rest : List Mastodon.Status) (st : Mastodon.Counters) (s : Mastodon.Status)
        (t : Int),
      s.createdAt = some t → t < cfg.cutoff →
      (s.reblog && !cfg.deleteReposts) = false →
      cfg.deletePinned = true →
      is_protected keep "mastodon" s.id = false →
      cfg.dryRun = false → del s.id = .ok →
      Mastodon.processStatuses cfg keep del (s :: rest) st =
        Mastodon.processStatuses cfg keep del rest
          { st with deleted := st.deleted + 1, calls := st.calls ++ [s.id] }) := by
  refine ⟨?_, ?_, ?_, ?_, ?_⟩
  · intro cfg keep authOk l1 l2 delOk pp rp lp h
    simp [Bluesky.delete_old_posts, h]
  · intro cfg keep delOk st r t hca hlt
    rw [Bluesky.step_eq]
    have ho : Bluesky.oldParsed cfg r = true := by
      simp [Bluesky.oldParsed, hca, hlt]
    have hp : Bluesky.pinnedHit (some r.uri) r = true := by
      simp [Bluesky.pinnedHit]
    simp [ho, hp]
  · intro cfg keep delOk st r
    rw [Bluesky.step_skippedPinned]
    have hp : Bluesky.pinnedHit none r = false := by
      simp [Bluesky.pinnedHit]
    simp [hp]
  · intro cfg keep del rest st s t hca hlt hrb hp hdp
    simp only [Mastodon.processStatuses, hca]
    rw [if_neg (not_le.mpr hlt), if_neg (by simp [hrb]), if_pos (by simp [hp, hdp])]
  · intro cfg keep del rest st s t hca hlt hrb hdp hk hd hdel
    simp only [Mastodon.processStatuses, hca]
    rw [if_neg (not_le.mpr hlt), if_neg (by simp [hrb]), if_neg (by simp [hdp]),
      if_neg (by simp [hk]), if_neg (by simp [hd]), hdel]

/-- C5 witness: `pinned_exception` applied at concrete inputs: with
`deletePinned` set the Bluesky pass ignores the looked-up pinned URI; with
it unset the old pinned record `rOld` (resp. the pinned status "p1") is
counted skipped-pinned. -/
theorem pinned_exception_witness :
    Bluesky.delete_old_posts cfgDelPinned [] true (some rOld.uri) (fun _ _ => true)
        [] [] [] =
      Bluesky.delete_old_posts cfgDelPinned [] true none (fun _ _ => true) [] [] [] ∧
    Bluesky.step cfgLive [] (some rOld.uri) (fun _ => true) Bluesky.initResult rOld =
      { Bluesky.initResult with
          skippedPinned := Bluesky.initResult.skippedPinned + 1 } ∧
    Mastodon.processStatuses cfgLive [] (fun _ => .ok) [sOldPinned "p1"]
        Mastodon.initCounters =
      Mastodon.processStatuses cfgLive [] (fun _ => .ok) []
        { Mastodon.initCounters with
            skippedPinned := Mastodon.initCounters.skippedPinned + 1 } :=
  ⟨pinned_exception.1 cfgDelPinned [] true (some rOld.uri) none (fun _ _ => true)
      [] [] [] rfl,
    pinned_exception.2.1 cfgLive [] (fun _ => true) Bluesky.initResult rOld (-5) rfl
      (by decide),
    pinned_exception.2.2.2.1 cfgLive [] (fun _ => .ok) [] Mastodon.initCounters
      (sOldPinned "p1") (-5) rfl (by decide) rfl rfl rfl⟩

/-- C6 counterexample: the claim says every page-retrieval failure,
including in the likes/favourites pass, is fatal to its pass.  But in
mastodon.rs a failed `list_favourites` call is only logged and breaks the
favourites loop: with an empty statuses collection and a failing first
favourites fetch, the whole Mastodon pass returns `Ok` with its counters
intact, not an error. -/
theorem fetch_failure_counterexample :
    Mastodon.delete_old_posts cfgLive [] (fun _ => .ok) (fun _ => .ok) true [] [none] =
      .ok (Mastodon.initCounters, some Mastodon.initFavCounters) := rfl

/-- C6 amended: a page-retrieval failure is fatal to the pass requesting
it — returning an error that discards the counters accumulated so far —
for the Bluesky record passes (conjunct 1), the Mastodon statuses pass
(conjunct 2, and through it the whole Mastodon run, conjunct 4) and the
Threads pass (conjunct 3); the one exception is the Mastodon favourites
loop, where a failed fetch merely ends the loop with a warning and the
counters gathered so far are kept (conjunct 5). -/
theorem fetch_failure_fatal :
    (∀ (cfg : Config) (keep : List String) (pinnedUri : Option String)
        (delOk : String → Bool) (rest : List (Option Bluesky.ListRecordsResponse))
        (st : Bluesky.DeleteResult),
      Bluesky.delete_old_records cfg keep pinnedUri delOk (none :: rest) st =
        .error ()) ∧
    (∀ (cfg : Config) (keep : List String) (del : String → Mastodon.DeleteOutcome)
        (rest : List (Option (List Mastodon.Status))) (st : Mastodon.Counters),
      Mastodon.statusesLoop cfg keep del (none :: rest) st = .error ()) ∧
    (∀ (cfg : Config) (keep : List String) (del : String → Threads.ThreadsDel)
        (rest : List (Option Threads.ThreadsPage)) (st : Threads.ThreadsState),
      Threads.delete_old_posts cfg keep del (none :: rest) st = .error ()) ∧
    (∀ (cfg : Config) (keep : List String) (del unfav : String → Mastodon.DeleteOutcome)
        (authOk : Bool) (rest : List (Option (List Mastodon.Status)))
        (favPages : List (Option Mastodon.FavPage)),
      Mastodon.delete_old_posts cfg keep del unfav authOk (none :: rest) favPages =
        .error ()) ∧
    (∀ (cfg : Config) (keep : List String) (unfav : String → Mastodon.DeleteOutcome)
        (rest : List (Option Mastodon.FavPage)) (st : Mastodon.FavCounters),
      Mastodon.favouritesLoop cfg keep unfav (none :: rest) st = st) := by
  refine ⟨fun _ _ _ _ _ _ => rfl, fun _ _ _ _ _ => rfl, fun _ _ _ _ _ => rfl,
    ?_, fun _ _ _ _ _ => rfl⟩
  intro cfg keep del unfav authOk rest favPages
  cases authOk <;> rfl

/-- C7: for any record set served through the cursor-based pagination
contract in pages of size `k + 1`, the Bluesky pass succeeds and equals a
single left fold of the per-record step over the full record list — each of
the N records is evaluated exactly once, in order, whatever the page size,
and the pass terminates (conjunct 1); the consumed pages cover exactly the
record list (conjunct 2); and when the records' rkeys are pairwise
distinct, no rkey is delete-called more than once (conjunct 3). -/
theorem pagination_exhaustion :
    (∀ (cfg : Config) (keep : List String) (pinnedUri : Option String)
        (delOk : String → Bool) (k : Nat) (all : List Bluesky.Record),
      Bluesky.delete_old_records cfg keep pinnedUri delOk
          ((Bluesky.chunkPages k all).map some) Bluesky.initResult =
        .ok (all.foldl (Bluesky.step cfg keep pinnedUri delOk) Bluesky.initResult)) ∧
    (∀ (k : Nat) (all : List Bluesky.Record),
      Bluesky.evaluated ((Bluesky.chunkPages k all).map some) = all) ∧
    (∀ (cfg : Config) (keep : List String) (pinnedUri : Option String)
        (delOk : String → Bool) (all : List Bluesky.Record),
      (all.map (fun r => Bluesky.rkeyOf r.uri)).Nodup →
      (all.foldl (Bluesky.step cfg keep pinnedUri delOk)
        Bluesky.initResult).calls.Nodup) := by
  refine ⟨?_, ?_, ?_⟩
  · intro cfg keep pinnedUri delOk k all
    exact Bluesky.chunk_loop cfg keep pinnedUri delOk k all.length all le_rfl
      Bluesky.initResult
  · intro k all
    exact Bluesky.chunk_evaluated k all.length all le_rfl
  · intro cfg keep pinnedUri delOk all hnd
    rw [Bluesky.foldl_calls]
    simp only [Bluesky.initResult, List.nil_append]
    exact ((List.filter_sublist all).map (fun r => Bluesky.rkeyOf r.uri)).nodup hnd

/-- C7 witness: `pagination_exhaustion` applied at a concrete record set
with distinct rkeys, page size one. -/
theorem pagination_exhaustion_witness :
    ([rOld, rOld2].map (fun r => Bluesky.rkeyOf r.uri)).Nodup ∧
    ([rOld, rOld2].foldl (Bluesky.step cfgLive [] none (fun _ => true))
      Bluesky.initResult).calls.Nodup :=
  ⟨by decide, pagination_exhaustion.2.2 cfgLive [] none (fun _ => true) [rOld, rOld2]
    (by decide)⟩

/-- C8 counterexample: the claim asserts that all three platforms,
including the centralized graph API (Threads), are dispatched by the
orchestrator when their credentials are present.  But the `match` arms of
`main` in main.rs cover exactly Bluesky and Mastodon: main.rs declares no
`mod threads`, reads no Threads environment variable, and never calls
threads.rs's `delete_old_posts`. -/
theorem threads_not_orchestrated :
    platformEnvVars.map Prod.fst = ["bluesky", "mastodon"] ∧
    "threads" ∉ platformEnvVars.map Prod.fst := by
  refine ⟨rfl, ?_⟩
  decide

/-- C8 amended: the orchestrator dispatches exactly two platforms, Bluesky
and Mastodon.  For each, the pass runs iff both of its environment
variables are present, and a platform with missing credentials is skipped
with a warning and never by itself causes a failure exit (conjuncts 1–2);
for a credentialed platform the applicable passes run: Bluesky always runs
the posts pass and runs the reposts / likes passes exactly when the
respective flags are set (conjunct 3), Mastodon always runs the statuses
pass and runs the favourites pass exactly when `deleteLikes` is set
(conjunct 4).  The Threads integration exists in the tree but is not
reachable from the orchestrator. -/
theorem credentialed_platforms_run :
    (∀ (c1 c2 : Bool) (r1 r2 : Except Unit Unit),
      (mainRun c1 c2 r1 r2).blueskyRan = c1 ∧ (mainRun c1 c2 r1 r2).mastodonRan = c2) ∧
    (∀ r1 r2 : Except Unit Unit, (mainRun false false r1 r2).exitZero = true) ∧
    (∀ (cfg : Config) (keep : List String) (lookupPinned : Option String)
        (delOk : String → String → Bool) (pp rp lp : List Bluesky.ListRecordsResponse),
      ∃ s : Bluesky.Summary,
        Bluesky.delete_old_posts cfg keep true lookupPinned delOk (pp.map some)
          (rp.map some) (lp.map some) = .ok s ∧
        s.reposts.isSome = cfg.deleteReposts ∧ s.likes.isSome = cfg.deleteLikes) ∧
    (∀ (cfg : Config) (keep : List String) (del unfav : String → Mastodon.DeleteOutcome)
        (sp : List (List Mastodon.Status)) (favPages : List (Option Mastodon.FavPage)),
      ∃ out, Mastodon.delete_old_posts cfg keep del unfav true (sp.map some) favPages =
          .ok out ∧ out.2.isSome = cfg.deleteLikes) := by
  refine ⟨fun _ _ _ _ => ⟨rfl, rfl⟩, fun _ _ => rfl, ?_, ?_⟩
  · intro cfg keep lookupPinned delOk pp rp lp
    refine ⟨_, Bluesky.bsky_pass_pure cfg keep lookupPinned delOk pp rp lp, ?_, ?_⟩
    · by_cases hr : cfg.deleteReposts <;> simp [hr]
    · by_cases hl : cfg.deleteLikes <;> simp [hl]
  · intro cfg keep del unfav sp favPages
    refine ⟨_, Mastodon.delete_old_posts_pure cfg keep del unfav sp favPages, ?_⟩
    by_cases hl : cfg.deleteLikes <;> simp [hl]

/-- C9: a record whose timestamp is absent (Bluesky, conjunct 1) or fails
to parse (Bluesky, conjunct 2; Mastodon statuses, conjunct 3; Mastodon
favourites, conjunct 4; Threads, conjunct 5) is skipped outright: the pass
state is completely unchanged — nothing is deleted, no outcome bucket is
incremented — and processing continues with the next record, so the pass
does not fail. -/
theorem invalid_timestamp_skipped :
    (∀ (cfg : Config) (keep : List String) (pinnedUri : Option String)
        (delOk : String → Bool) (st : Bluesky.DeleteResult) (r : Bluesky.Record),
      r.createdAt = none → Bluesky.step cfg keep pinnedUri delOk st r = st) ∧
    (∀ (cfg : Config) (keep : List String) (pinnedUri : Option String)
        (delOk : String → Bool) (st : Bluesky.DeleteResult) (r : Bluesky.Record),
      r.createdAt = some none → Bluesky.step cfg keep pinnedUri delOk st r = st) ∧
    (∀ (cfg : Config) (keep : List String) (del : String → Mastodon.DeleteOutcome)
        (rest : List Mastodon.Status) (st : Mastodon.Counters) (s : Mastodon.Status),
      s.createdAt = none →
      Mastodon.processStatuses cfg keep del (s :: rest) st =
        Mastodon.processStatuses cfg keep del rest st) ∧
    (∀ (cfg : Config) (keep : List String) (unfav : String → Mastodon.DeleteOutcome)
        (rest : List Mastodon.Status) (st : Mastodon.FavCounters) (s : Mastodon.Status),
      s.createdAt = none →
      Mastodon.processFavourites cfg keep unfav (s :: rest) st =
        Mastodon.processFavourites cfg keep unfav rest st) ∧
    (∀ (cfg : Config) (keep : List String) (del : String → Threads.ThreadsDel)
        (rest : List Threads.ThreadsPost) (st : Threads.ThreadsState)
        (p : Threads.ThreadsPost),
      p.timestamp = none →
      Threads.processPosts cfg keep del (p :: rest) st =
        Threads.processPosts cfg keep del rest st) := by
  refine ⟨?_, ?_, ?_, ?_, ?_⟩
  · intro cfg keep pinnedUri delOk st r h
    simp [Bluesky.step, h]
  · intro cfg keep pinnedUri delOk st r h
    simp [Bluesky.step, h]
  · intro cfg keep del rest st s h
    simp [Mastodon.processStatuses, h]
  · intro cfg keep unfav rest st s h
    simp [Mastodon.processFavourites, h]
  · intro cfg keep del rest st p h
    simp [Threads.processPosts, h]

/-- C9 witness: `invalid_timestamp_skipped` applied at a record with no
`createdAt` field and a status with an unparsable timestamp. -/
theorem invalid_timestamp_skipped_witness :
    Bluesky.step cfgLive [] none (fun _ => true) Bluesky.initResult rNoTs =
      Bluesky.initResult ∧
    Mastodon.processStatuses cfgLive [] (fun _ => .ok)
        [⟨"m1", none, false, false⟩] Mastodon.initCounters = Mastodon.initCounters :=
  ⟨invalid_timestamp_skipped.1 cfgLive [] none (fun _ => true) Bluesky.initResult
      rNoTs rfl,
    invalid_timestamp_skipped.2.2.1 cfgLive [] (fun _ => .ok) [] Mastodon.initCounters
      ⟨"m1", none, false, false⟩ rfl⟩

/-- C10: the run exits with zero status iff every credentialed platform's
pass returned without a propagated error (conjunct 1); a Bluesky failure
does not prevent Mastodon from being attempted — whether a platform runs
depends only on its own credentials (conjunct 2); and individual failed
record deletions never fail a pass: with every delete call failing, the
Mastodon statuses pass (conjunct 3) and the Bluesky pass (conjunct 4)
still return successfully. -/
theorem exit_status_contract :
    (∀ (c1 c2 : Bool) (r1 r2 : Except Unit Unit),
      (mainRun c1 c2 r1 r2).exitZero = true ↔
        ((c1 = true → r1 = .ok ()) ∧ (c2 = true → r2 = .ok ()))) ∧
    (∀ (c1 c2 : Bool) (r1 r2 : Except Unit Unit),
      (mainRun c1 c2 r1 r2).mastodonRan = c2) ∧
    (∀ (cfg : Config) (keep : List String) (pages : List (List Mastodon.Status)),
      ∃ st', Mastodon.statusesLoop cfg keep (fun _ => .otherErr) (pages.map some)
        Mastodon.initCounters = .ok st') ∧
    (∀ (cfg : Config) (keep : List String) (pinnedUri : Option String)
        (pages : List Bluesky.ListRecordsResponse),
      ∃ st', Bluesky.delete_old_records cfg keep pinnedUri (fun _ => false)
        (pages.map some) Bluesky.initResult = .ok st') := by
  refine ⟨?_, fun _ _ _ _ => rfl, ?_, ?_⟩
  · intro c1 c2 r1 r2
    cases c1 <;> cases c2 <;> rcases r1 with ⟨⟨⟩⟩ | ⟨⟨⟩⟩ <;> rcases r2 with ⟨⟨⟩⟩ | ⟨⟨⟩⟩ <;>
      simp [mainRun, passFailed]
  · intro cfg keep pages
    exact ⟨_, Mastodon.statusesLoop_pure cfg keep (fun _ => .otherErr) pages
      Mastodon.initCounters⟩
  · intro cfg keep pinnedUri pages
    exact ⟨_, Bluesky.delete_old_records_pure cfg keep pinnedUri (fun _ => false)
      pages Bluesky.initResult⟩

/-- C10 witness: the exit-status biconditional of `exit_status_contract`
applied at a concrete run where both platforms are credentialed and
succeed. -/
theorem exit_status_contract_witness :
    (mainRun true true (.ok ()) (.ok ())).exitZero = true ↔
      ((true = true → (Except.ok () : Except Unit Unit) = .ok ()) ∧
        (true = true → (Except.ok () : Except Unit Unit) = .ok ())) :=
  exit_status_contract.1 true true (.ok ()) (.ok ())

end Skyscraper
